import Mathlib

/-!
Verification of the ranking / rating / diversity evaluation engine of the
`recommenders` repository against its natural-language specification.

The definitions below are a shallow embedding of
`recommenders/evaluation/python_evaluation.py`.  Tables (pandas DataFrames)
are modelled as lists of rows; identifiers and numeric values are rationals
(Python ints and floats are embedded as exact rationals; the real-valued
metrics that use `log`/`sqrt` live in `ℝ`).  Division by zero yields `0` in
this model (pandas produces `inf`/`NaN`; no claim below depends on that
corner).  Row order of intermediate frames follows pandas semantics:
`groupby` enumerates keys in ascending order, `nlargest` is a stable
descending sort by value followed by `take` (ties keep first occurrence),
and `pd.merge` keeps left-row order, expanding each left row by its
matching right rows in right order.
-/

deriving instance DecidableEq for Except

namespace RecoEval

/-- A raw DataFrame: column names, column dtypes and rows.  A row stores
cells keyed by column name; `getCell` looks a cell up (missing cells read
as `0`, which never happens after column validation). -/
structure RawTable where
  cols : List String
  dtypes : List (String × String)
  rows : List (List (String × ℚ))
deriving DecidableEq

def getCell (row : List (String × ℚ)) (c : String) : ℚ :=
  ((row.find? (fun p => p.1 = c)).map Prod.snd).getD 0

/-- A typed interaction row: user id, item id and one value column
(rating for a true table, prediction score for a predicted table). -/
structure Row where
  user : ℚ
  item : ℚ
  value : ℚ
deriving DecidableEq

/-- Project the three relevant columns of a raw table. -/
def extractCols (t : RawTable) (cu ci cv : String) : List Row :=
  t.rows.map (fun r => ⟨getCell r cu, getCell r ci, getCell r cv⟩)

def dtypeOf (t : RawTable) (c : String) : String :=
  ((t.dtypes.find? (fun p => p.1 = c)).map Prod.snd).getD ""

/-- Modelled from the spec: `has_columns` of
`recommenders.datasets.pandas_df_utils` (the module is not part of the
provided sources); per the spec it checks that the input table contains
all the required columns. -/
def has_columns (t : RawTable) (cs : List String) : Bool :=
  cs.all (fun c => t.cols.contains c)

/-- Modelled from the spec: `has_same_base_dtype` of
`recommenders.datasets.pandas_df_utils` (not part of the provided
sources); per the spec it checks that the named columns have matching
base dtypes across the two tables. -/
def has_same_base_dtype (t1 t2 : RawTable) (cs : List String) : Bool :=
  cs.all (fun c => dtypeOf t1 c = dtypeOf t2 c)

/-- `check_column_dtypes` — the decorator wrapped around both merge
functions: validates required columns of both tables and the base dtypes
of the user/item columns, then runs the wrapped function on the typed
projections.  The error strings are the ones raised in the source. -/
def check_column_dtypes {α : Type} (f : List Row → List Row → Except String α)
    (rating_true rating_pred : RawTable) (cu ci cr cp : String) : Except String α :=
  if ¬ has_columns rating_true [cu, ci, cr] then
    Except.error "Missing columns in true rating DataFrame"
  else if ¬ has_columns rating_pred [cu, ci, cp] then
    Except.error "Missing columns in predicted rating DataFrame"
  else if ¬ has_same_base_dtype rating_true rating_pred [cu, ci] then
    Except.error "Columns in provided DataFrames are not the same datatype"
  else
    f (extractCols rating_true cu ci cr) (extractCols rating_pred cu ci cp)

/-! ### The ranking merge step (`merge_ranking_true_pred`) -/

def usersOf (t : List Row) : List ℚ := (t.map Row.user).dedup

/-- `set(rating_true[col_user]) ∩ set(rating_pred[col_user])`. -/
def commonUsersList (tt tp : List Row) : List ℚ :=
  (usersOf tt).filter (fun u => (usersOf tp).contains u)

/-- `df[df[col_user].isin(common_users)]`. -/
def commonRows (t : List Row) (common : List ℚ) : List Row :=
  t.filter (fun r => common.contains r.user)

/-- Ascending sort of group keys (pandas `groupby` sorts keys). -/
def sortUsers (us : List ℚ) : List ℚ :=
  List.insertionSort (fun a b => a ≤ b) us

def rowsOfUser (t : List Row) (u : ℚ) : List Row :=
  t.filter (fun r => r.user = u)

/-- `DataFrame.nlargest(k, col_rating)`: stable descending sort by value
(ties keep original row order, `keep="first"`), then the first `k` rows.
A non-positive `k` returns no rows, as in pandas. -/
def nlargest (k : ℤ) (l : List Row) : List Row :=
  (List.insertionSort (fun a b : Row => b.value ≤ a.value) l).take k.toNat

/-- `get_top_k_items`: with `k = None` the frame passes through unchanged
and the rank of a row is its position within its user's rows in original
order (`groupby(col_user, sort=False).cumcount() + 1`); with a concrete
`k`, groups are enumerated in ascending user order, each group is cut by
`nlargest`, and ranks are positions inside the cut group. -/
def get_top_k_items (df : List Row) (kOpt : Option ℤ) : List (Row × ℕ) :=
  match kOpt with
  | none =>
      df.enum.map (fun p =>
        (p.2, ((df.take p.1).filter (fun r => r.user = p.2.user)).length + 1))
  | some k =>
      (sortUsers (usersOf df)).flatMap (fun u =>
        (nlargest k (rowsOfUser df u)).enum.map (fun p => (p.2, p.1 + 1)))

/-- `pd.merge(df_hit, rating_true_common, on=[col_user, col_item])`
projected to `[col_user, col_item, "rank"]`: every ranked top-k row is
repeated once per matching true row (left order kept). -/
def df_hit_of (tt_common : List Row) (topk : List (Row × ℕ)) :
    List (ℚ × ℚ × ℕ) :=
  topk.flatMap (fun p =>
    (tt_common.filter (fun r => r.user = p.1.user ∧ r.item = p.1.item)).map
      (fun _ => (p.1.user, p.1.item, p.2)))

/-- `df_hit.groupby(col_user).agg hit-count` inner-merged on `col_user`
with `rating_true_common.groupby(col_user).agg actual-count`; rows are
`(user, hit, actual)`, keys in ascending order, restricted to users that
appear in both frames. -/
def hitCountRows (dfHit : List (ℚ × ℚ × ℕ)) (tt_common : List Row) :
    List (ℚ × ℕ × ℕ) :=
  ((sortUsers ((dfHit.map (fun r => r.1)).dedup)).filter
      (fun u => (tt_common.map Row.user).contains u)).map
    (fun u => (u, (dfHit.filter (fun r => r.1 = u)).length,
      (rowsOfUser tt_common u).length))

/-- The output of `merge_ranking_true_pred`: the hit frame
`(user, item, rank)`, the per-user count frame `(user, hit, actual)` and
the number of common users. -/
structure RankMerge where
  dfHit : List (ℚ × ℚ × ℕ)
  dfHitCount : List (ℚ × ℕ × ℕ)
  nUsers : ℕ
deriving DecidableEq

/-- Body of `merge_ranking_true_pred` after the relevancy dispatch:
restrict both tables to common users, cut the predicted table
(`kOpt = none` is the pass-through of `relevancy_method=None`), merge
with the true table to get hits, and count hits vs actual per user. -/
def merge_ranking_core (rating_true rating_pred : List Row) (kOpt : Option ℤ) :
    RankMerge :=
  let common := commonUsersList rating_true rating_pred
  let ttc := commonRows rating_true common
  let tpc := commonRows rating_pred common
  let dfHit := df_hit_of ttc (get_top_k_items tpc kOpt)
  { dfHit := dfHit
    dfHitCount := hitCountRows dfHit ttc
    nUsers := common.length }

/-- `merge_ranking_true_pred` including the relevancy-method dispatch:
`top_k` cuts to the `k` largest, `by_threshold` passes `threshold` to the
same count cut, `None` passes through, anything else raises
`NotImplementedError("Invalid relevancy_method")`. -/
def merge_ranking_true_pred (rating_true rating_pred : List Row)
    (relevancy_method : Option String) (k threshold : ℤ) :
    Except String RankMerge :=
  if relevancy_method = some "top_k" then
    Except.ok (merge_ranking_core rating_true rating_pred (some k))
  else if relevancy_method = some "by_threshold" then
    Except.ok (merge_ranking_core rating_true rating_pred (some threshold))
  else if relevancy_method = none then
    Except.ok (merge_ranking_core rating_true rating_pred none)
  else
    Except.error "Invalid relevancy_method"

/-! ### Ranking metrics -/

/-- `precision_at_k` after the merge:
`0.0` when `df_hit` is empty, else `(df_hit_count["hit"] / k).sum() / n_users`. -/
def precision_from (m : RankMerge) (k : ℤ) : ℚ :=
  if m.dfHit = [] then 0
  else ((m.dfHitCount.map (fun c => (c.2.1 : ℚ) / (k : ℚ))).sum) / (m.nUsers : ℚ)

/-- `recall_at_k` after the merge:
`0.0` when `df_hit` is empty, else
`(df_hit_count["hit"] / df_hit_count["actual"]).sum() / n_users`. -/
def recall_from (m : RankMerge) : ℚ :=
  if m.dfHit = [] then 0
  else ((m.dfHitCount.map (fun c => (c.2.1 : ℚ) / (c.2.2 : ℚ))).sum) / (m.nUsers : ℚ)

/-- `sum(1 / np.log1p(range(1, min(actual, k) + 1)))` — the ideal DCG of
a user with `actual` true items. -/
noncomputable def idcg_val (actual : ℕ) (k : ℤ) : ℝ :=
  ((List.range (min (actual : ℤ) k).toNat).map
    (fun j : ℕ => 1 / Real.log (1 + ((j : ℝ) + 1)))).sum

/-- `ndcg_at_k` after the merge: discounted gain `1/log(1+rank)` summed
per user over `df_hit` (`groupby(col_user, sort=False)`, keys in first
occurrence order), inner-merged with `df_hit_count` on user, each user
contributing `dcg / idcg`, averaged over `n_users`. -/
noncomputable def ndcg_from (m : RankMerge) (k : ℤ) : ℝ :=
  if m.dfHit = [] then 0
  else
    let dcgRows := ((m.dfHit.map (fun r => r.1)).dedup).map
      (fun u => (u, ((m.dfHit.filter (fun r => r.1 = u)).map
        (fun r => 1 / Real.log (1 + (r.2.2 : ℝ)))).sum))
    let ndcgRows := dcgRows.flatMap (fun d =>
      (m.dfHitCount.filter (fun c => c.1 = d.1)).map
        (fun c => d.2 / idcg_val c.2.2 k))
    ndcgRows.sum / (m.nUsers : ℝ)

/-- Per-user reciprocal-rank sum of `map_at_k`:
`(groupby(col_user).cumcount() + 1) / rank`, summed.  The cumulative
count of a row is its position among its user's hit rows. -/
def rrSum (l : List (ℚ × ℚ × ℕ)) : ℚ :=
  (l.enum.map (fun p => ((p.1 : ℚ) + 1) / (p.2.2.2 : ℚ))).sum

/-- `map_at_k` after the merge: per-user reciprocal-rank sums
inner-merged with `df_hit_count` on user, each user contributing
`rr / actual`, averaged over `n_users`. -/
def map_from (m : RankMerge) : ℚ :=
  if m.dfHit = [] then 0
  else
    let rrRows := ((m.dfHit.map (fun r => r.1)).dedup).map
      (fun u => (u, rrSum (m.dfHit.filter (fun r => r.1 = u))))
    let mergeRows := rrRows.flatMap (fun d =>
      (m.dfHitCount.filter (fun c => c.1 = d.1)).map
        (fun c => d.2 / (c.2.2 : ℚ)))
    mergeRows.sum / (m.nUsers : ℚ)

/-- `precision_at_k` on raw tables: column validation, ranking merge,
then the precision formula. -/
def precision_at_k (rating_true rating_pred : RawTable) (cu ci cr cp : String)
    (relevancy_method : Option String) (k threshold : ℤ) : Except String ℚ :=
  check_column_dtypes
    (fun tt tp =>
      (merge_ranking_true_pred tt tp relevancy_method k threshold).map
        (fun m => precision_from m k))
    rating_true rating_pred cu ci cr cp

/-- `recall_at_k` on raw tables. -/
def recall_at_k (rating_true rating_pred : RawTable) (cu ci cr cp : String)
    (relevancy_method : Option String) (k threshold : ℤ) : Except String ℚ :=
  check_column_dtypes
    (fun tt tp =>
      (merge_ranking_true_pred tt tp relevancy_method k threshold).map
        (fun m => recall_from m))
    rating_true rating_pred cu ci cr cp

/-- `ndcg_at_k` on raw tables. -/
noncomputable def ndcg_at_k (rating_true rating_pred : RawTable)
    (cu ci cr cp : String) (relevancy_method : Option String) (k threshold : ℤ) :
    Except String ℝ :=
  check_column_dtypes
    (fun tt tp =>
      (merge_ranking_true_pred tt tp relevancy_method k threshold).map
        (fun m => ndcg_from m k))
    rating_true rating_pred cu ci cr cp

/-- `map_at_k` on raw tables. -/
def map_at_k (rating_true rating_pred : RawTable) (cu ci cr cp : String)
    (relevancy_method : Option String) (k threshold : ℤ) : Except String ℚ :=
  check_column_dtypes
    (fun tt tp =>
      (merge_ranking_true_pred tt tp relevancy_method k threshold).map
        (fun m => map_from m))
    rating_true rating_pred cu ci cr cp

/-! ### Rating metrics -/

/-- Body of `merge_rating_true_pred`: inner join of the two typed tables
on `(user, item)`, returning the paired `(rating, prediction)` columns
(left order, right matches in right order). -/
def merge_rating_core (tt tp : List Row) : List (ℚ × ℚ) :=
  tt.flatMap (fun r =>
    (tp.filter (fun s => s.user = r.user ∧ s.item = r.item)).map
      (fun s => (r.value, s.value)))

/-- `mae`: mean absolute error of the merged rating/prediction pairs. -/
def mae (rating_true rating_pred : RawTable) (cu ci cr cp : String) :
    Except String ℚ :=
  check_column_dtypes
    (fun tt tp =>
      let ps := merge_rating_core tt tp
      Except.ok ((ps.map (fun p => |p.1 - p.2|)).sum / (ps.length : ℚ)))
    rating_true rating_pred cu ci cr cp

/-- `rmse`: root of the mean squared error of the merged pairs. -/
noncomputable def rmse (rating_true rating_pred : RawTable)
    (cu ci cr cp : String) : Except String ℝ :=
  check_column_dtypes
    (fun tt tp =>
      let ps := merge_rating_core tt tp
      Except.ok (Real.sqrt
        (((ps.map (fun p => ((p.1 - p.2 : ℚ) : ℝ) ^ 2)).sum) / (ps.length : ℝ))))
    rating_true rating_pred cu ci cr cp

/-! ### The single-entry merge cache (`lru_cache_df(maxsize=1)`) -/

/-- A cache state is valid for `f` when any stored value is the value of
`f` at the stored key. -/
def CacheValid {κ ν : Type} (f : κ → ν) (c : Option (κ × ν)) : Prop :=
  ∀ p : κ × ν, c = some p → p.2 = f p.1

/-- Modelled from the spec: `lru_cache_df(maxsize=1)` of
`recommenders.datasets.pandas_df_utils` (not part of the provided
sources); per the spec it is a bounded memoization cache of size one for
the most recent merge, keyed by the identity of the inputs: a call with
the cached key returns the cached value, any other call computes the
function and replaces the single entry. -/
def cachedCall {κ ν : Type} [DecidableEq κ] (f : κ → ν) (c : Option (κ × ν))
    (x : κ) : ν × Option (κ × ν) :=
  match c with
  | some p => if p.1 = x then (p.2, some p) else (f x, some (x, f x))
  | none => (f x, some (x, f x))

/-- Argument tuple of `merge_ranking_true_pred` — the cache key. -/
structure RankArgs where
  rt : RawTable
  rp : RawTable
  cu : String
  ci : String
  cr : String
  cp : String
  method : Option String
  k : ℤ
  threshold : ℤ
deriving DecidableEq

/-- `merge_ranking_true_pred` as applied through its decorators, as a
function of the full argument tuple (the cached function). -/
def merge_ranking_args (a : RankArgs) : Except String RankMerge :=
  check_column_dtypes
    (fun tt tp => merge_ranking_true_pred tt tp a.method a.k a.threshold)
    a.rt a.rp a.cu a.ci a.cr a.cp

/-- Argument tuple of `merge_rating_true_pred` — the cache key. -/
structure RatingArgs where
  rt : RawTable
  rp : RawTable
  cu : String
  ci : String
  cr : String
  cp : String
deriving DecidableEq

/-- `merge_rating_true_pred` as applied through its decorators, as a
function of the full argument tuple (the cached function). -/
def merge_rating_args (a : RatingArgs) : Except String (List (ℚ × ℚ)) :=
  check_column_dtypes (fun tt tp => Except.ok (merge_rating_core tt tp))
    a.rt a.rp a.cu a.ci a.cr a.cp

/-! ### The spec's NDCG formula -/

/-- The NDCG formula as worded by the spec:
`ndcg@k = (Σ_u DCG_u / IDCG_u) / n_users` where the sum ranges over the
users common to both tables, `DCG_u` sums `1/log(1+rank)` over u's hit
items ranked within u's top-k predictions, `IDCG_u` sums `1/log(1+j)` for
`j` from 1 to `min(actual_u, k)` with `actual_u` the number of u's true
items, and `n_users` is the number of common users. -/
noncomputable def ndcg_spec (tt tp : List Row) (k : ℤ) : ℝ :=
  let common := commonUsersList tt tp
  let ttc := commonRows tt common
  let tpc := commonRows tp common
  ((common.map (fun u =>
      let ranked := nlargest k (rowsOfUser tpc u)
      let dcg := (ranked.enum.map (fun p =>
        if (rowsOfUser ttc u).any (fun r => r.item = p.2.item) then
          (1 : ℝ) / Real.log (1 + ((p.1 : ℝ) + 1))
        else 0)).sum
      let actual := ((rowsOfUser ttc u).map Row.item).dedup.length
      let idcg := ((List.range (min (actual : ℤ) k).toNat).map
        (fun j : ℕ => (1 : ℝ) / Real.log (1 + ((j : ℝ) + 1)))).sum
      dcg / idcg)).sum) / (common.length : ℝ)

/-! ### The diversity evaluator (`PythonDiversityEvaluation`) -/

/-- The state a successfully constructed `PythonDiversityEvaluation`
holds: the training interactions `(user, item)` and the recommendations
`(user, item, relevance)`. -/
structure DiversityEval where
  train_df : List (ℚ × ℚ)
  reco_df : List (ℚ × ℚ × ℚ)
deriving DecidableEq

/-- `PythonDiversityEvaluation.__init__` with `col_relevance=None`: a
constant relevance column of `1.0` is appended, then the inner merge of
`train_df` and `reco_df` on `(user, item)` is counted and construction
raises when the count is nonzero. -/
def diversityInit (train reco : List (ℚ × ℚ)) : Except String DiversityEval :=
  if (train.flatMap (fun t =>
      reco.filter (fun r => r.1 = t.1 ∧ r.2 = t.2))).length ≠ 0 then
    Except.error
      "reco_df should not contain any user_item pairs that are already shown in train_df"
  else
    Except.ok { train_df := train, reco_df := reco.map (fun p => (p.1, p.2, (1 : ℚ))) }

/-- `_get_pairwise_items`: self-join of the frame on user (left order,
right matches in order), keeping pairs with `i1 <= i2`; rows are
`(user, i1, i2)`. -/
def get_pairwise_items (df : List (ℚ × ℚ)) : List (ℚ × ℚ × ℚ) :=
  (df.flatMap (fun a =>
    (df.filter (fun b => b.1 = a.1)).map (fun b => (a.1, a.2, b.2)))).filter
    (fun t => t.2.1 ≤ t.2.2)

/-- `train_df.groupby(col_item).size()`: one row `(item, count)` per
distinct item, keys ascending. -/
def itemCountRows (train : List (ℚ × ℚ)) : List (ℚ × ℕ) :=
  (List.insertionSort (fun a b => a ≤ b) ((train.map (fun p => p.2)).dedup)).map
    (fun i => (i, (train.filter (fun p => p.2 = i)).length))

/-- `_get_cosine_similarity`: pairwise item co-occurrence counts from the
training log, joined with the per-item interaction counts of both items,
similarity = count / (sqrt(count_i1) * sqrt(count_i2)).  Keys `(i1, i2)`
are unique; the row order of the table is irrelevant downstream (it is
only merged on). -/
noncomputable def get_cosine_similarity (train : List (ℚ × ℚ)) :
    List ((ℚ × ℚ) × ℝ) :=
  let pairs := get_pairwise_items train
  let pairKeys := (pairs.map (fun t => (t.2.1, t.2.2))).dedup
  let pairsCount : List ((ℚ × ℚ) × ℕ) :=
    pairKeys.map (fun q => (q, (pairs.filter (fun t => (t.2.1, t.2.2) = q)).length))
  let ic := itemCountRows train
  pairsCount.flatMap (fun pc =>
    (ic.filter (fun c => c.1 = pc.1.1)).flatMap (fun c1 =>
      (ic.filter (fun c => c.1 = pc.1.2)).map (fun c2 =>
        (pc.1, (pc.2 : ℝ) / (Real.sqrt (c1.2 : ℝ) * Real.sqrt (c2.2 : ℝ))))))

/-- First half of `_get_intralist_similarity`: pairwise item
combinations per user of the recommendation frame, left-merged with the
cosine similarity table (missing pairs read 0 — `fillna(0)`; lookup by
`find?` is the merge because the similarity keys are unique), with the
self-pairs `i1 == i2` removed.  Rows are `(user, i1, i2, sim)`. -/
noncomputable def intralist_filtered (E : DiversityEval) :
    List (ℚ × ℚ × ℚ × ℝ) :=
  ((get_pairwise_items (E.reco_df.map (fun r => (r.1, r.2.1)))).map
    (fun t => (t.1, t.2.1, t.2.2,
      (((get_cosine_similarity E.train_df).find?
        (fun s => s.1 = (t.2.1, t.2.2))).map Prod.snd).getD 0))).filter
    (fun t => t.2.1 ≠ t.2.2.1)

/-- `_get_intralist_similarity` applied to the recommendation frame: the
mean similarity per user over the surviving pairwise rows
(`groupby(col_user).agg mean`, keys ascending). -/
noncomputable def get_intralist_similarity (E : DiversityEval) : List (ℚ × ℝ) :=
  (List.insertionSort (fun a b => a ≤ b)
      (((intralist_filtered E).map (fun t => t.1)).dedup)).map
    (fun u =>
      let sims := ((intralist_filtered E).filter (fun t => t.1 = u)).map
        (fun t => t.2.2.2)
      (u, sims.sum / (sims.length : ℝ)))

/-- `user_diversity()`: `1 - avg_il_sim` per user, sorted by user (the
intra-list frame is already in ascending user order; `sort_values` keeps
it). -/
noncomputable def user_diversity (E : DiversityEval) : List (ℚ × ℝ) :=
  (get_intralist_similarity E).map (fun p => (p.1, 1 - p.2))

/-- `diversity()`: the mean of the `user_diversity` column. -/
noncomputable def diversity (E : DiversityEval) : ℝ :=
  ((user_diversity E).map Prod.snd).sum / ((user_diversity E).length : ℝ)

/-! ### Shared predicates and concrete fixtures -/

/-- The `(user, item)` key pairs of a typed table. -/
def pairsOf (t : List Row) : List (ℚ × ℚ) := t.map (fun r => (r.user, r.item))

/-- A valid interaction table has no duplicate `(user, item)` pair. -/
def NodupPairs (t : List Row) : Prop := (pairsOf t).Nodup

instance (t : List Row) : Decidable (NodupPairs t) := by
  unfold NodupPairs
  infer_instance

/-- Both tables pass the column / dtype validation of
`check_column_dtypes`. -/
def checksPass (rt rp : RawTable) (cu ci cr cp : String) : Prop :=
  has_columns rt [cu, ci, cr] = true ∧ has_columns rp [cu, ci, cp] = true ∧
    has_same_base_dtype rt rp [cu, ci] = true

instance (rt rp : RawTable) (cu ci cr cp : String) :
    Decidable (checksPass rt rp cu ci cr cp) := by
  unfold checksPass
  infer_instance

/-- Fixture: a true table — user 1 rated items 10 and 20. -/
def tTrue2 : RawTable :=
  { cols := ["userID", "itemID", "rating"]
    dtypes := [("userID", "int"), ("itemID", "int")]
    rows := [[("userID", 1), ("itemID", 10), ("rating", 1)],
             [("userID", 1), ("itemID", 20), ("rating", 1)]] }

/-- Fixture: a predicted table — user 1, item 10 scored 5, item 20
scored 4. -/
def tPred2 : RawTable :=
  { cols := ["userID", "itemID", "prediction"]
    dtypes := [("userID", "int"), ("itemID", "int")]
    rows := [[("userID", 1), ("itemID", 10), ("prediction", 5)],
             [("userID", 1), ("itemID", 20), ("prediction", 4)]] }

/-- Fixture: a true table whose columns omit `userID`. -/
def tMissUser : RawTable :=
  { cols := ["itemID", "rating"], dtypes := [], rows := [] }

/-- Fixture: a true table whose columns omit `rating`. -/
def tMissRating : RawTable :=
  { cols := ["userID", "itemID"], dtypes := [], rows := [] }

/-- Fixture: a true table with a single interaction (user 1, item 10). -/
def tTrue1 : RawTable :=
  { cols := ["userID", "itemID", "rating"]
    dtypes := [("userID", "int"), ("itemID", "int")]
    rows := [[("userID", 1), ("itemID", 10), ("rating", 1)]] }

/-- Fixture: a predicted table with the single prediction (user 1,
item 30). -/
def tPredDisjoint : RawTable :=
  { cols := ["userID", "itemID", "prediction"]
    dtypes := [("userID", "int"), ("itemID", "int")]
    rows := [[("userID", 1), ("itemID", 30), ("prediction", 5)]] }

end RecoEval

namespace RecoEval

/-! ### Helper lemmas: grouped lists -/

/-- Filtering a concatenation of keyed blocks by an absent key gives
nothing. -/
theorem grouped_filter_nil {β : Type} (key : β → ℚ) (keys : List ℚ)
    (F : ℚ → List β) (hF : ∀ u, ∀ b ∈ F u, key b = u) (u : ℚ) (hu : u ∉ keys) :
    (keys.flatMap F).filter (fun b => key b = u) = [] := by
  rw [List.filter_eq_nil_iff]
  intro b hb
  obtain ⟨a, ha, hbF⟩ := List.mem_flatMap.mp hb
  have hk := hF a b hbF
  simp only [decide_eq_true_eq]
  intro h
  have hau : a = u := by rw [← hk, h]
  exact hu (hau ▸ ha)

/-- Filtering a concatenation of keyed blocks (distinct keys) by a
present key returns exactly that key's block. -/
theorem grouped_filter_eq {β : Type} (key : β → ℚ) (keys : List ℚ)
    (F : ℚ → List β) (hF : ∀ u, ∀ b ∈ F u, key b = u) (hnd : keys.Nodup)
    (u : ℚ) (hu : u ∈ keys) :
    (keys.flatMap F).filter (fun b => key b = u) = F u := by
  induction keys with
  | nil => cases hu
  | cons a l ih =>
    rw [List.flatMap_cons, List.filter_append]
    rcases List.mem_cons.mp hu with h | h
    · subst h
      have h1 : (F u).filter (fun b => key b = u) = F u :=
        List.filter_eq_self.mpr (fun b hb => by simp [hF u b hb])
      have h2 : (l.flatMap F).filter (fun b => key b = u) = [] :=
        grouped_filter_nil key l F hF u (List.nodup_cons.mp hnd).1
      rw [h1, h2, List.append_nil]
    · have hne : a ≠ u := by
        rintro rfl
        exact (List.nodup_cons.mp hnd).1 h
      have h1 : (F a).filter (fun b => key b = u) = [] := by
        rw [List.filter_eq_nil_iff]
        intro b hb
        simp only [decide_eq_true_eq]
        rw [hF a b hb]
        exact hne
      rw [h1, List.nil_append]
      exact ih (List.nodup_cons.mp hnd).2 h

/-- A key occurs among the keys of a concatenation of keyed blocks iff
its block is nonempty. -/
theorem grouped_mem_map_key {β : Type} (key : β → ℚ) (keys : List ℚ)
    (F : ℚ → List β) (hF : ∀ u, ∀ b ∈ F u, key b = u) (v : ℚ) :
    v ∈ (keys.flatMap F).map key ↔ v ∈ keys ∧ F v ≠ [] := by
  constructor
  · intro hv
    obtain ⟨b, hb, hkb⟩ := List.mem_map.mp hv
    obtain ⟨a, ha, hbF⟩ := List.mem_flatMap.mp hb
    have : a = v := by rw [← hkb, hF a b hbF]
    subst this
    exact ⟨ha, fun hnil => by rw [hnil] at hbF; cases hbF⟩
  · rintro ⟨hv, hne⟩
    obtain ⟨b, hb⟩ := List.exists_mem_of_ne_nil _ hne
    exact List.mem_map.mpr ⟨b, List.mem_flatMap.mpr ⟨v, hv, hb⟩, hF v b hb⟩

/-! ### Helper lemmas: valid tables -/

/-- A duplicate-free list has at most one occurrence of any value. -/
theorem nodup_filter_singleton {α : Type} [DecidableEq α] {l : List α}
    (h : l.Nodup) (x : α) : (l.filter (fun a => a = x)).length ≤ 1 := by
  induction l with
  | nil => simp
  | cons a tl ih =>
    rcases List.nodup_cons.mp h with ⟨hna, hnd⟩
    by_cases hax : a = x
    · subst hax
      have : tl.filter (fun b => b = a) = [] :=
        List.filter_eq_nil_iff.mpr (fun b hb => by
          simp only [decide_eq_true_eq]
          rintro rfl
          exact hna hb)
      simp [List.filter_cons, this]
    · simpa [List.filter_cons, hax] using ih hnd

/-- In a table without duplicate `(user, item)` pairs, at most one row
matches a given pair. -/
theorem count_pair_le_one {t : List Row} (h : NodupPairs t) (u i : ℚ) :
    (t.filter (fun r => r.user = u ∧ r.item = i)).length ≤ 1 := by
  have hmap : (pairsOf t).filter (fun p => p = (u, i)) =
      (t.filter (fun r => r.user = u ∧ r.item = i)).map (fun r => (r.user, r.item)) := by
    rw [pairsOf, List.filter_map]
    congr 1
    apply List.filter_congr
    intro r _
    simp [Prod.ext_iff, Function.comp]
  calc (t.filter (fun r => r.user = u ∧ r.item = i)).length
      = ((t.filter (fun r => r.user = u ∧ r.item = i)).map (fun r => (r.user, r.item))).length := by
        rw [List.length_map]
    _ = ((pairsOf t).filter (fun p => p = (u, i))).length := by rw [hmap]
    _ ≤ 1 := nodup_filter_singleton h (u, i)

/-- `NodupPairs` passes to sublists. -/
theorem NodupPairs.sublist {t t' : List Row} (h : NodupPairs t)
    (hs : t'.Sublist t) : NodupPairs t' :=
  List.Nodup.sublist (List.Sublist.map _ hs) h

/-- In a table without duplicate pairs, the items of one user's rows are
distinct. -/
theorem rowsOfUser_items_nodup {t : List Row} (h : NodupPairs t) (u : ℚ) :
    ((rowsOfUser t u).map Row.item).Nodup := by
  have hnd : NodupPairs (rowsOfUser t u) :=
    h.sublist (List.filter_sublist t)
  have hl : (rowsOfUser t u).Nodup := List.Nodup.of_map _ hnd
  have hinj := (List.nodup_map_iff_inj_on hl).mp hnd
  apply List.Nodup.map_on _ hl
  intro x hx y hy hxy
  apply hinj x hx y hy
  have hxu : x.user = u := by simpa using (List.mem_filter.mp hx).2
  have hyu : y.user = u := by simpa using (List.mem_filter.mp hy).2
  simp [Prod.ext_iff, hxu, hyu, hxy]

/-- Distinct keys partition a list: summing the sizes of the matching
classes over distinct keys never exceeds the length of the list. -/
theorem sum_filter_length_le {α : Type} (f : α → ℚ) (l : List α) (is : List ℚ)
    (hnd : is.Nodup) :
    (is.map (fun i => (l.filter (fun a => f a = i)).length)).sum ≤ l.length := by
  induction is generalizing l with
  | nil => simp
  | cons i tl ih =>
    rcases List.nodup_cons.mp hnd with ⟨hni, hnd'⟩
    have hsplit := List.length_eq_length_filter_add (l := l) (fun a => f a = i)
    have heq : ∀ j ∈ tl, l.filter (fun a => f a = j) =
        (l.filter (fun a => !(f a = i : Bool))).filter (fun a => f a = j) := by
      intro j hj
      rw [List.filter_filter]
      apply List.filter_congr
      intro a _
      by_cases h : f a = j
      · have hji : ¬ j = i := by
          rintro rfl
          exact hni hj
        simp [h, hji]
      · simp [h]
    have hmapeq : tl.map (fun j => (l.filter (fun a => f a = j)).length) =
        tl.map (fun j =>
          ((l.filter (fun a => !(f a = i : Bool))).filter (fun a => f a = j)).length) := by
      apply List.map_congr_left
      intro j hj
      rw [heq j hj]
    rw [List.map_cons, List.sum_cons, hmapeq]
    have := ih (l.filter (fun a => !(f a = i : Bool))) hnd'
    omega

/-- When validation passes, `check_column_dtypes` runs the wrapped
function on the typed projections. -/
theorem check_column_dtypes_pass {α : Type}
    (f : List Row → List Row → Except String α) (rt rp : RawTable)
    (cu ci cr cp : String) (h : checksPass rt rp cu ci cr cp) :
    check_column_dtypes f rt rp cu ci cr cp =
      f (extractCols rt cu ci cr) (extractCols rp cu ci cp) := by
  obtain ⟨h1, h2, h3⟩ := h
  rw [check_column_dtypes, if_neg (by simp [h1]), if_neg (by simp [h2]),
    if_neg (by simp [h3])]

/-! ### Helper lemmas: the top-k cut -/

theorem mem_nlargest {k : ℤ} {l : List Row} {r : Row} (h : r ∈ nlargest k l) :
    r ∈ l :=
  (List.perm_insertionSort _ l).subset ((List.take_sublist _ _).subset h)

theorem mem_nlargest_user {df : List Row} {u : ℚ} {k : ℤ} {r : Row}
    (h : r ∈ nlargest k (rowsOfUser df u)) : r.user = u := by
  have := (List.mem_filter.mp (mem_nlargest h)).2
  simpa using this

theorem length_nlargest_le (k : ℤ) (l : List Row) :
    (nlargest k l).length ≤ k.toNat :=
  List.length_take_le _ _

/-- In a duplicate-free predicted table, the items of a user's top-k cut
are distinct. -/
theorem nlargest_items_nodup {t : List Row} (h : NodupPairs t) (u : ℚ) (k : ℤ) :
    ((nlargest k (rowsOfUser t u)).map Row.item).Nodup := by
  have h1 : ((rowsOfUser t u).map Row.item).Nodup := rowsOfUser_items_nodup h u
  have h2 : ((List.insertionSort (fun a b : Row => b.value ≤ a.value)
      (rowsOfUser t u)).map Row.item).Nodup :=
    h1.perm ((List.perm_insertionSort _ _).map Row.item).symm
  exact List.Nodup.sublist (List.Sublist.map _ (List.take_sublist _ _)) h2

/-- Every ranked row of `get_top_k_items` is a row of the input frame. -/
theorem topk_fst_mem {df : List Row} {kOpt : Option ℤ} {q : Row × ℕ}
    (h : q ∈ get_top_k_items df kOpt) : q.1 ∈ df := by
  cases kOpt with
  | none =>
    obtain ⟨p, hp, hq⟩ := List.mem_map.mp h
    have := List.mem_enum hp
    subst hq
    simp only
    rw [this.2]
    exact List.getElem_mem _
  | some k =>
    obtain ⟨u, _, hq⟩ := List.mem_flatMap.mp h
    obtain ⟨p, hp, hq2⟩ := List.mem_map.mp hq
    have hmem : p.2 ∈ nlargest k (rowsOfUser df u) := by
      obtain ⟨i, x⟩ := p
      have := List.mem_enum hp
      simp only
      rw [this.2]
      exact List.getElem_mem _
    subst hq2
    exact (List.filter_sublist df).subset (mem_nlargest hmem)

/-! ### Helper lemmas: the hit frame -/

/-- Every hit row comes from a ranked predicted row and a matching true
row. -/
theorem mem_df_hit {tt_common : List Row} {topk : List (Row × ℕ)}
    {r : ℚ × ℚ × ℕ} (h : r ∈ df_hit_of tt_common topk) :
    ∃ q ∈ topk, ∃ t ∈ tt_common,
      r = (q.1.user, q.1.item, q.2) ∧ t.user = q.1.user ∧ t.item = q.1.item := by
  obtain ⟨q, hq, hr⟩ := List.mem_flatMap.mp h
  obtain ⟨t, ht, hr2⟩ := List.mem_map.mp hr
  have htf := List.mem_filter.mp ht
  refine ⟨q, hq, t, htf.1, hr2.symm, ?_, ?_⟩
  · have := htf.2
    simp only [decide_eq_true_eq] at this
    exact this.1
  · have := htf.2
    simp only [decide_eq_true_eq] at this
    exact this.2

/-- Every row of the hit-count frame records one hit user `u`, its hit
count and its actual count, with `u` drawn from the hit frame's users
and present in the common true table. -/
theorem mem_hitCountRows {dfHit : List (ℚ × ℚ × ℕ)} {ttc : List Row}
    {c : ℚ × ℕ × ℕ} (h : c ∈ hitCountRows dfHit ttc) :
    ∃ u, c = (u, (dfHit.filter (fun r => r.1 = u)).length,
        (rowsOfUser ttc u).length) ∧
      u ∈ (dfHit.map (fun r => r.1)).dedup ∧ ∃ t ∈ ttc, t.user = u := by
  obtain ⟨u, hu, hc⟩ := List.mem_map.mp h
  have hf := List.mem_filter.mp hu
  refine ⟨u, hc.symm, ?_, ?_⟩
  · exact ((List.perm_insertionSort _ _).mem_iff).mp hf.1
  · have := hf.2
    simp only [List.contains_eq_any_beq, List.any_eq_true] at this
    obtain ⟨v, hv, hvu⟩ := this
    obtain ⟨t, ht, htv⟩ := List.mem_map.mp hv
    exact ⟨t, ht, by rw [htv]; exact (beq_iff_eq.mp hvu).symm⟩

/-- Every hit-count row has a positive actual count. -/
theorem hitCount_actual_pos {dfHit : List (ℚ × ℚ × ℕ)} {ttc : List Row} :
    ∀ c ∈ hitCountRows dfHit ttc, 1 ≤ c.2.2 := by
  intro c hc
  obtain ⟨u, hceq, _, t, ht, htu⟩ := mem_hitCountRows hc
  subst hceq
  have : t ∈ rowsOfUser ttc u := List.mem_filter.mpr ⟨ht, by simp [htu]⟩
  exact List.length_pos_of_mem this

/-- The hit-count frame has pairwise-distinct user keys. -/
theorem hitCountRows_keys_nodup (dfHit : List (ℚ × ℚ × ℕ)) (ttc : List Row) :
    ((hitCountRows dfHit ttc).map (fun c => c.1)).Nodup := by
  have h1 : ((sortUsers ((dfHit.map (fun r => r.1)).dedup)).filter
      (fun u => (ttc.map Row.user).contains u)).Nodup := by
    apply List.Nodup.filter
    exact ((List.nodup_dedup _).perm (List.perm_insertionSort _ _).symm)
  rw [hitCountRows, List.map_map]
  have hcomp : ((fun c : ℚ × ℕ × ℕ => c.1) ∘ fun u =>
      (u, (dfHit.filter (fun r => r.1 = u)).length,
        (rowsOfUser ttc u).length)) = fun u => u := rfl
  rw [hcomp, List.map_id']
  exact h1

/-- There are no more hit-count rows than distinct hit users. -/
theorem hitCountRows_length_le (dfHit : List (ℚ × ℚ × ℕ)) (ttc : List Row) :
    (hitCountRows dfHit ttc).length ≤ ((dfHit.map (fun r => r.1)).dedup).length := by
  rw [hitCountRows, List.length_map]
  calc ((sortUsers ((dfHit.map (fun r => r.1)).dedup)).filter
        (fun u => (ttc.map Row.user).contains u)).length
      ≤ (sortUsers ((dfHit.map (fun r => r.1)).dedup)).length :=
        List.length_filter_le _ _
    _ = ((dfHit.map (fun r => r.1)).dedup).length :=
        (List.perm_insertionSort _ _).length_eq

/-! ### Error-path lemmas for the validation wrapper -/

theorem check_column_dtypes_err_true {α : Type}
    (f : List Row → List Row → Except String α) (rt rp : RawTable)
    (cu ci cr cp : String) (h : has_columns rt [cu, ci, cr] = false) :
    check_column_dtypes f rt rp cu ci cr cp =
      Except.error "Missing columns in true rating DataFrame" := by
  rw [check_column_dtypes, if_pos (by simp [h])]

theorem check_column_dtypes_err_pred {α : Type}
    (f : List Row → List Row → Except String α) (rt rp : RawTable)
    (cu ci cr cp : String) (h1 : has_columns rt [cu, ci, cr] = true)
    (h2 : has_columns rp [cu, ci, cp] = false) :
    check_column_dtypes f rt rp cu ci cr cp =
      Except.error "Missing columns in predicted rating DataFrame" := by
  rw [check_column_dtypes, if_neg (by simp [h1]), if_pos (by simp [h2])]

theorem merge_ranking_unknown_method (tt tp : List Row)
    (method : Option String) (k threshold : ℤ) (h1 : method ≠ some "top_k")
    (h2 : method ≠ some "by_threshold") (h3 : method ≠ none) :
    merge_ranking_true_pred tt tp method k threshold =
      Except.error "Invalid relevancy_method" := by
  rw [merge_ranking_true_pred, if_neg h1, if_neg h2, if_neg h3]

/-! ### Claim theorems -/

/-- C2, counterexample: the schema error message does not name the
missing column(s) — a true table missing `userID` and one missing
`rating` produce the identical fixed message. -/
theorem C2_counterexample :
    precision_at_k tMissUser tPred2 "userID" "itemID" "rating" "prediction"
        (some "top_k") 10 10 =
      Except.error "Missing columns in true rating DataFrame" ∧
    precision_at_k tMissRating tPred2 "userID" "itemID" "rating" "prediction"
        (some "top_k") 10 10 =
      Except.error "Missing columns in true rating DataFrame" := by
  constructor <;> decide

/-- C2 (amended): an input table missing required columns makes every
evaluation function fail immediately with the fixed schema error naming
the offending table (true or predicted) — not the missing columns — and
no metric value is produced. -/
theorem C2_schema_error (rt rp : RawTable) (cu ci cr cp : String)
    (method : Option String) (k threshold : ℤ) :
    (has_columns rt [cu, ci, cr] = false →
      precision_at_k rt rp cu ci cr cp method k threshold =
        Except.error "Missing columns in true rating DataFrame" ∧
      recall_at_k rt rp cu ci cr cp method k threshold =
        Except.error "Missing columns in true rating DataFrame" ∧
      ndcg_at_k rt rp cu ci cr cp method k threshold =
        Except.error "Missing columns in true rating DataFrame" ∧
      map_at_k rt rp cu ci cr cp method k threshold =
        Except.error "Missing columns in true rating DataFrame" ∧
      mae rt rp cu ci cr cp =
        Except.error "Missing columns in true rating DataFrame" ∧
      rmse rt rp cu ci cr cp =
        Except.error "Missing columns in true rating DataFrame") ∧
    (has_columns rt [cu, ci, cr] = true → has_columns rp [cu, ci, cp] = false →
      precision_at_k rt rp cu ci cr cp method k threshold =
        Except.error "Missing columns in predicted rating DataFrame" ∧
      recall_at_k rt rp cu ci cr cp method k threshold =
        Except.error "Missing columns in predicted rating DataFrame" ∧
      ndcg_at_k rt rp cu ci cr cp method k threshold =
        Except.error "Missing columns in predicted rating DataFrame" ∧
      map_at_k rt rp cu ci cr cp method k threshold =
        Except.error "Missing columns in predicted rating DataFrame" ∧
      mae rt rp cu ci cr cp =
        Except.error "Missing columns in predicted rating DataFrame" ∧
      rmse rt rp cu ci cr cp =
        Except.error "Missing columns in predicted rating DataFrame") := by
  constructor
  · intro h
    exact ⟨check_column_dtypes_err_true _ rt rp cu ci cr cp h,
      check_column_dtypes_err_true _ rt rp cu ci cr cp h,
      check_column_dtypes_err_true _ rt rp cu ci cr cp h,
      check_column_dtypes_err_true _ rt rp cu ci cr cp h,
      check_column_dtypes_err_true _ rt rp cu ci cr cp h,
      check_column_dtypes_err_true _ rt rp cu ci cr cp h⟩
  · intro h1 h2
    exact ⟨check_column_dtypes_err_pred _ rt rp cu ci cr cp h1 h2,
      check_column_dtypes_err_pred _ rt rp cu ci cr cp h1 h2,
      check_column_dtypes_err_pred _ rt rp cu ci cr cp h1 h2,
      check_column_dtypes_err_pred _ rt rp cu ci cr cp h1 h2,
      check_column_dtypes_err_pred _ rt rp cu ci cr cp h1 h2,
      check_column_dtypes_err_pred _ rt rp cu ci cr cp h1 h2⟩

/-- Witness for C2: evaluated on the fixtures, a true table missing its
user column fails with the true-side schema error, and a predicted table
missing its prediction column fails with the predicted-side schema
error. -/
theorem C2_schema_error_witness :
    precision_at_k tMissUser tPred2 "userID" "itemID" "rating" "prediction"
        (some "top_k") 10 10 =
      Except.error "Missing columns in true rating DataFrame" ∧
    mae tTrue2 tMissRating "userID" "itemID" "rating" "prediction" =
      Except.error "Missing columns in predicted rating DataFrame" :=
  ⟨((C2_schema_error tMissUser tPred2 "userID" "itemID" "rating" "prediction"
      (some "top_k") 10 10).1 (by decide)).1,
    ((C2_schema_error tTrue2 tMissRating "userID" "itemID" "rating" "prediction"
      (some "top_k") 10 10).2 (by decide) (by decide)).2.2.2.2.1⟩

/-- C1: at the failing input — user 1 with true items 10 and 20,
predictions 10 ↦ 5 and 20 ↦ 4, `relevancy_method="by_threshold"`,
`threshold=1` — item 20's score 4 passes the threshold 1 yet the merge
keeps only the single highest-scored item: `by_threshold` is a
count-based top-N cut with N = threshold (identical to `top_k` with
`k = threshold`), not a score filter. -/
theorem C1_by_threshold_count_cut :
    ((⟨1, 20, 4⟩ : Row) ∈ extractCols tPred2 "userID" "itemID" "prediction" ∧
      (1 : ℚ) ≤ 4) ∧
    merge_ranking_true_pred (extractCols tTrue2 "userID" "itemID" "rating")
        (extractCols tPred2 "userID" "itemID" "prediction")
        (some "by_threshold") 10 1 =
      Except.ok { dfHit := [(1, 10, 1)], dfHitCount := [(1, 1, 2)], nUsers := 1 } ∧
    merge_ranking_true_pred (extractCols tTrue2 "userID" "itemID" "rating")
        (extractCols tPred2 "userID" "itemID" "prediction")
        (some "by_threshold") 10 1 =
      merge_ranking_true_pred (extractCols tTrue2 "userID" "itemID" "rating")
        (extractCols tPred2 "userID" "itemID" "prediction") (some "top_k") 1 5 := by
  refine ⟨⟨?_, ?_⟩, ?_, ?_⟩ <;> decide

/-- C8: constructing the diversity evaluator on a train table and a
recommendation table sharing at least one `(user, item)` pair raises
immediately with the overlap error. -/
theorem C8_diversity_overlap (train reco : List (ℚ × ℚ))
    (h : ∃ p, p ∈ train ∧ p ∈ reco) :
    diversityInit train reco = Except.error
      "reco_df should not contain any user_item pairs that are already shown in train_df" := by
  obtain ⟨p, hpt, hpr⟩ := h
  have hmem : p ∈ train.flatMap (fun t =>
      reco.filter (fun r => r.1 = t.1 ∧ r.2 = t.2)) :=
    List.mem_flatMap.mpr ⟨p, hpt, List.mem_filter.mpr ⟨hpr, by simp⟩⟩
  have hlen : (train.flatMap (fun t =>
      reco.filter (fun r => r.1 = t.1 ∧ r.2 = t.2))).length ≠ 0 :=
    Nat.pos_iff_ne_zero.mp (List.length_pos_of_mem hmem)
  rw [diversityInit, if_pos hlen]

/-- Witness for C8: overlapping singleton tables raise. -/
theorem C8_diversity_overlap_witness :
    diversityInit [((1 : ℚ), (10 : ℚ))] [((1 : ℚ), (10 : ℚ))] = Except.error
      "reco_df should not contain any user_item pairs that are already shown in train_df" :=
  C8_diversity_overlap _ _ ⟨(1, 10), by decide, by decide⟩

/-- The cached call returns the plain function value and preserves cache
validity. -/
theorem cachedCall_spec {κ ν : Type} [DecidableEq κ] (f : κ → ν)
    (c : Option (κ × ν)) (h : CacheValid f c) (x : κ) :
    (cachedCall f c x).1 = f x ∧ CacheValid f (cachedCall f c x).2 := by
  cases c with
  | none =>
    refine ⟨rfl, ?_⟩
    intro p hp
    have : some (x, f x) = some p := hp
    cases this
    rfl
  | some q =>
    by_cases hq : q.1 = x
    · have h2 : q.2 = f q.1 := h q rfl
      constructor
      · show (if q.1 = x then (q.2, some q) else (f x, some (x, f x))).1 = f x
        rw [if_pos hq, h2, hq]
      · show CacheValid f (if q.1 = x then (q.2, some q) else (f x, some (x, f x))).2
        rw [if_pos hq]
        exact h
    · constructor
      · show (if q.1 = x then (q.2, some q) else (f x, some (x, f x))).1 = f x
        rw [if_neg hq]
      · show CacheValid f (if q.1 = x then (q.2, some q) else (f x, some (x, f x))).2
        rw [if_neg hq]
        intro p hp
        cases hp
        rfl

/-- C6: the merge steps are memoized through a single-entry cache; on a
valid cache, a cached call returns exactly the uncached merge value, a
second identical call returns the same value, and hence every metric
computed from the merge output is unchanged by the cache. -/
theorem C6_idempotent {α β : Type}
    (c1 : Option (RankArgs × Except String RankMerge))
    (h1 : CacheValid merge_ranking_args c1) (x : RankArgs)
    (g : Except String RankMerge → α)
    (c2 : Option (RatingArgs × Except String (List (ℚ × ℚ))))
    (h2 : CacheValid merge_rating_args c2) (y : RatingArgs)
    (g2 : Except String (List (ℚ × ℚ)) → β) :
    (g (cachedCall merge_ranking_args c1 x).1 =
        g (cachedCall merge_ranking_args (cachedCall merge_ranking_args c1 x).2 x).1 ∧
      (cachedCall merge_ranking_args c1 x).1 = merge_ranking_args x ∧
      (cachedCall merge_ranking_args (cachedCall merge_ranking_args c1 x).2 x).1 =
        merge_ranking_args x) ∧
    (g2 (cachedCall merge_rating_args c2 y).1 =
        g2 (cachedCall merge_rating_args (cachedCall merge_rating_args c2 y).2 y).1 ∧
      (cachedCall merge_rating_args c2 y).1 = merge_rating_args y ∧
      (cachedCall merge_rating_args (cachedCall merge_rating_args c2 y).2 y).1 =
        merge_rating_args y) := by
  obtain ⟨ha1, ha2⟩ := cachedCall_spec merge_ranking_args c1 h1 x
  obtain ⟨hb1, _⟩ := cachedCall_spec merge_ranking_args _ ha2 x
  obtain ⟨hc1, hc2⟩ := cachedCall_spec merge_rating_args c2 h2 y
  obtain ⟨hd1, _⟩ := cachedCall_spec merge_rating_args _ hc2 y
  exact ⟨⟨by rw [ha1, hb1], ha1, hb1⟩, ⟨by rw [hc1, hd1], hc1, hd1⟩⟩

/-- Witness for C6: starting from an empty cache on concrete tables, the
first cached ranking merge equals the uncached merge. -/
theorem C6_idempotent_witness :
    (cachedCall merge_ranking_args none
        ⟨tTrue2, tPred2, "userID", "itemID", "rating", "prediction",
          some "top_k", 2, 10⟩).1 =
      merge_ranking_args ⟨tTrue2, tPred2, "userID", "itemID", "rating",
        "prediction", some "top_k", 2, 10⟩ :=
  ((C6_idempotent none (fun p hp => nomatch hp)
      ⟨tTrue2, tPred2, "userID", "itemID", "rating", "prediction",
        some "top_k", 2, 10⟩ id none (fun p hp => nomatch hp)
      ⟨tTrue2, tPred2, "userID", "itemID", "rating", "prediction"⟩
      id).1).2.1


theorem get_top_k_items_nonpos (df : List Row) {k : ℤ} (hk : k ≤ 0) :
    get_top_k_items df (some k) = [] := by
  rw [get_top_k_items]
  apply List.flatMap_eq_nil_iff.mpr
  intro u _
  rw [nlargest, Int.toNat_of_nonpos hk, List.take_zero]
  rfl

theorem merge_core_dfHit_nonpos (tt tp : List Row) {k : ℤ} (hk : k ≤ 0) :
    (merge_ranking_core tt tp (some k)).dfHit = [] := by
  simp only [merge_ranking_core]
  rw [get_top_k_items_nonpos _ hk]
  rfl

/-- C5 (amended): with validated tables, an unrecognized
`relevancy_method` makes every ranking metric fail at call time with
`"Invalid relevancy_method"`, but an invalid (non-positive) `k` does not
fail: the count cut returns no rows and every ranking metric silently
returns `0.0`. -/
theorem C5_config_error (rt rp : RawTable) (cu ci cr cp : String)
    (method : Option String) (k threshold : ℤ)
    (hpass : checksPass rt rp cu ci cr cp) :
    (method ≠ some "top_k" → method ≠ some "by_threshold" → method ≠ none →
      precision_at_k rt rp cu ci cr cp method k threshold =
        Except.error "Invalid relevancy_method" ∧
      recall_at_k rt rp cu ci cr cp method k threshold =
        Except.error "Invalid relevancy_method" ∧
      ndcg_at_k rt rp cu ci cr cp method k threshold =
        Except.error "Invalid relevancy_method" ∧
      map_at_k rt rp cu ci cr cp method k threshold =
        Except.error "Invalid relevancy_method") ∧
    (k ≤ 0 →
      precision_at_k rt rp cu ci cr cp (some "top_k") k threshold =
        Except.ok 0 ∧
      recall_at_k rt rp cu ci cr cp (some "top_k") k threshold =
        Except.ok 0 ∧
      ndcg_at_k rt rp cu ci cr cp (some "top_k") k threshold =
        Except.ok 0 ∧
      map_at_k rt rp cu ci cr cp (some "top_k") k threshold =
        Except.ok 0) := by
  constructor
  · intro h1 h2 h3
    have key : ∀ {γ : Type} (form : RankMerge → γ),
        check_column_dtypes (fun tt tp =>
          (merge_ranking_true_pred tt tp method k threshold).map form)
          rt rp cu ci cr cp = Except.error "Invalid relevancy_method" := by
      intro γ form
      rw [check_column_dtypes_pass _ rt rp cu ci cr cp hpass,
        merge_ranking_unknown_method _ _ _ _ _ h1 h2 h3]
      rfl
    exact ⟨key _, key _, key _, key _⟩
  · intro hk
    have hnil : (merge_ranking_core (extractCols rt cu ci cr)
        (extractCols rp cu ci cp) (some k)).dfHit = [] :=
      merge_core_dfHit_nonpos _ _ hk
    have key : ∀ {γ : Type} (form : RankMerge → γ) (z : γ),
        form (merge_ranking_core (extractCols rt cu ci cr)
          (extractCols rp cu ci cp) (some k)) = z →
        check_column_dtypes (fun tt tp =>
          (merge_ranking_true_pred tt tp (some "top_k") k threshold).map form)
          rt rp cu ci cr cp = Except.ok z := by
      intro γ form z hform
      rw [check_column_dtypes_pass _ rt rp cu ci cr cp hpass,
        merge_ranking_true_pred, if_pos rfl]
      simp [Except.map, hform]
    refine ⟨key _ 0 ?_, key _ 0 ?_, key _ 0 ?_, key _ 0 ?_⟩
    · rw [precision_from, if_pos hnil]
    · rw [recall_from, if_pos hnil]
    · rw [ndcg_from, if_pos hnil]
    · rw [map_from, if_pos hnil]

/-- Witness for C5: on the fixtures, an unknown method errors and
`k = -1` silently returns `0.0`. -/
theorem C5_config_error_witness :
    precision_at_k tTrue2 tPred2 "userID" "itemID" "rating" "prediction"
        (some "nope") 3 10 = Except.error "Invalid relevancy_method" ∧
    precision_at_k tTrue2 tPred2 "userID" "itemID" "rating" "prediction"
        (some "top_k") (-1) 10 = Except.ok 0 :=
  ⟨((C5_config_error tTrue2 tPred2 "userID" "itemID" "rating" "prediction"
        (some "nope") 3 10 (by decide)).1 (by decide) (by decide) (by decide)).1,
    ((C5_config_error tTrue2 tPred2 "userID" "itemID" "rating" "prediction"
        (some "nope") (-1) 10 (by decide)).2 (by decide)).1⟩

/-- C5, counterexample: a negative `k` does not fail at call time — on
tables that do produce a hit for valid `k`, `precision_at_k` with
`k = -1` silently returns `0.0` instead of raising. -/
theorem C5_counterexample :
    precision_at_k tTrue2 tPred2 "userID" "itemID" "rating" "prediction"
        (some "top_k") (-1) 10 = Except.ok 0 ∧
    precision_at_k tTrue2 tPred2 "userID" "itemID" "rating" "prediction"
        (some "top_k") 2 10 = Except.ok 1 := by
  constructor
  · decide
  · have h : merge_ranking_true_pred
        (extractCols tTrue2 "userID" "itemID" "rating")
        (extractCols tPred2 "userID" "itemID" "prediction")
        (some "top_k") 2 10 =
        Except.ok ⟨[(1, 10, 1), (1, 20, 2)], [(1, 2, 2)], 1⟩ := by decide
    rw [precision_at_k, check_column_dtypes_pass _ tTrue2 tPred2
      "userID" "itemID" "rating" "prediction" (by decide), h]
    norm_num [Except.map, precision_from]
    decide

/-- C3, counterexample: with `relevancy_method=None` (and likewise
`by_threshold`) the hit count of a user can exceed `k`, so
`precision_at_k` exceeds 1: two hits with `k = 1` give precision 2. -/
theorem C3_counterexample :
    precision_at_k tTrue2 tPred2 "userID" "itemID" "rating" "prediction"
        none 1 10 = Except.ok 2 ∧
    precision_at_k tTrue2 tPred2 "userID" "itemID" "rating" "prediction"
        (some "by_threshold") 1 10 = Except.ok 2 ∧
    ¬ ((2 : ℚ) ≤ 1) := by
  refine ⟨?_, ?_, by norm_num⟩
  · have h : merge_ranking_true_pred
        (extractCols tTrue2 "userID" "itemID" "rating")
        (extractCols tPred2 "userID" "itemID" "prediction") none 1 10 =
        Except.ok ⟨[(1, 10, 1), (1, 20, 2)], [(1, 2, 2)], 1⟩ := by decide
    rw [precision_at_k, check_column_dtypes_pass _ tTrue2 tPred2
      "userID" "itemID" "rating" "prediction" (by decide), h]
    norm_num [Except.map, precision_from]
    decide
  · have h : merge_ranking_true_pred
        (extractCols tTrue2 "userID" "itemID" "rating")
        (extractCols tPred2 "userID" "itemID" "prediction")
        (some "by_threshold") 1 10 =
        Except.ok ⟨[(1, 10, 1), (1, 20, 2)], [(1, 2, 2)], 1⟩ := by decide
    rw [precision_at_k, check_column_dtypes_pass _ tTrue2 tPred2
      "userID" "itemID" "rating" "prediction" (by decide), h]
    norm_num [Except.map, precision_from]
    decide


/-- With pair-disjoint tables the hit frame is empty, whatever the
relevancy cut. -/
theorem merge_core_dfHit_disjoint (tt tp : List Row) (kOpt : Option ℤ)
    (h : ∀ r ∈ tt, ∀ s ∈ tp, ¬ (r.user = s.user ∧ r.item = s.item)) :
    (merge_ranking_core tt tp kOpt).dfHit = [] := by
  simp only [merge_ranking_core]
  apply List.flatMap_eq_nil_iff.mpr
  intro q hq
  have hfil : (commonRows tt (commonUsersList tt tp)).filter
      (fun r => r.user = q.1.user ∧ r.item = q.1.item) = [] := by
    rw [List.filter_eq_nil_iff]
    intro t ht
    have htt : t ∈ tt := (List.filter_sublist _).subset ht
    have hq1 : q.1 ∈ commonRows tp (commonUsersList tt tp) := topk_fst_mem hq
    have hq2 : q.1 ∈ tp := (List.filter_sublist _).subset hq1
    simp only [decide_eq_true_eq]
    exact h t htt q.1 hq2
  rw [hfil]
  rfl

/-- C4: on validated tables that share no `(user, item)` pair, each of
the four ranking metrics returns exactly `0.0`, whatever the recognized
relevancy method and however many common users exist. -/
theorem C4_no_overlap_zero (rt rp : RawTable) (cu ci cr cp : String)
    (method : Option String) (k threshold : ℤ)
    (hpass : checksPass rt rp cu ci cr cp)
    (hmethod : method = some "top_k" ∨ method = some "by_threshold" ∨
      method = none)
    (hdisj : ∀ r ∈ extractCols rt cu ci cr, ∀ s ∈ extractCols rp cu ci cp,
      ¬ (r.user = s.user ∧ r.item = s.item)) :
    precision_at_k rt rp cu ci cr cp method k threshold = Except.ok 0 ∧
    recall_at_k rt rp cu ci cr cp method k threshold = Except.ok 0 ∧
    ndcg_at_k rt rp cu ci cr cp method k threshold = Except.ok 0 ∧
    map_at_k rt rp cu ci cr cp method k threshold = Except.ok 0 := by
  have key : ∀ {γ : Type} (form : RankMerge → γ) (z : γ),
      (∀ m : RankMerge, m.dfHit = [] → form m = z) →
      check_column_dtypes (fun tt tp =>
        (merge_ranking_true_pred tt tp method k threshold).map form)
        rt rp cu ci cr cp = Except.ok z := by
    intro γ form z hform
    rw [check_column_dtypes_pass _ rt rp cu ci cr cp hpass]
    rcases hmethod with hm | hm | hm <;> subst hm
    · rw [merge_ranking_true_pred, if_pos rfl]
      simp [Except.map, hform _ (merge_core_dfHit_disjoint _ _ _ hdisj)]
    · rw [merge_ranking_true_pred, if_neg (by decide), if_pos rfl]
      simp [Except.map, hform _ (merge_core_dfHit_disjoint _ _ _ hdisj)]
    · rw [merge_ranking_true_pred, if_neg (by decide), if_neg (by decide),
        if_pos rfl]
      simp [Except.map, hform _ (merge_core_dfHit_disjoint _ _ _ hdisj)]
  exact ⟨key _ 0 (fun m hm => by rw [precision_from, if_pos hm]),
    key _ 0 (fun m hm => by rw [recall_from, if_pos hm]),
    key _ 0 (fun m hm => by rw [ndcg_from, if_pos hm]),
    key _ 0 (fun m hm => by rw [map_from, if_pos hm])⟩

/-- Witness for C4: user 1's true item 10 and predicted item 30 share no
pair; all four metrics are exactly `0.0`. -/
theorem C4_no_overlap_zero_witness :
    precision_at_k tTrue1 tPredDisjoint "userID" "itemID" "rating"
      "prediction" (some "top_k") 5 10 = Except.ok 0 ∧
    recall_at_k tTrue1 tPredDisjoint "userID" "itemID" "rating"
      "prediction" (some "top_k") 5 10 = Except.ok 0 ∧
    ndcg_at_k tTrue1 tPredDisjoint "userID" "itemID" "rating"
      "prediction" (some "top_k") 5 10 = Except.ok 0 ∧
    map_at_k tTrue1 tPredDisjoint "userID" "itemID" "rating"
      "prediction" (some "top_k") 5 10 = Except.ok 0 :=
  C4_no_overlap_zero tTrue1 tPredDisjoint "userID" "itemID" "rating"
    "prediction" (some "top_k") 5 10 (by decide) (Or.inl rfl) (by decide)

/-- The ideal DCG is strictly positive as soon as the user has a true
item and `k ≥ 1`. -/
theorem idcg_pos {a : ℕ} {k : ℤ} (ha : 1 ≤ a) (hk : 1 ≤ k) :
    0 < idcg_val a k := by
  rw [idcg_val]
  apply List.sum_pos
  · intro x hx
    obtain ⟨j, _, hxj⟩ := List.mem_map.mp hx
    subst hxj
    apply div_pos one_pos
    apply Real.log_pos
    have : (0 : ℝ) ≤ (j : ℝ) := Nat.cast_nonneg j
    linarith
  · have h1 : (1 : ℤ) ≤ min (a : ℤ) k := le_min (by exact_mod_cast ha) hk
    intro hnil
    rw [List.map_eq_nil_iff, List.range_eq_nil] at hnil
    omega

/-- `merge_ranking_true_pred` only succeeds with the core merge under
one of the three recognized cuts. -/
theorem merge_ok_inv {tt tp : List Row} {method : Option String}
    {k threshold : ℤ} {m : RankMerge}
    (h : merge_ranking_true_pred tt tp method k threshold = Except.ok m) :
    m = merge_ranking_core tt tp (some k) ∨
    m = merge_ranking_core tt tp (some threshold) ∨
    m = merge_ranking_core tt tp none := by
  rw [merge_ranking_true_pred] at h
  by_cases h1 : method = some "top_k"
  · rw [if_pos h1] at h
    exact Or.inl (Except.ok.inj h).symm
  · rw [if_neg h1] at h
    by_cases h2 : method = some "by_threshold"
    · rw [if_pos h2] at h
      exact Or.inr (Or.inl (Except.ok.inj h).symm)
    · rw [if_neg h2] at h
      by_cases h3 : method = none
      · rw [if_pos h3] at h
        exact Or.inr (Or.inr (Except.ok.inj h).symm)
      · rw [if_neg h3] at h
        cases h

/-- Every hit user of the core merge is a user of the hit-count frame. -/
theorem core_dfHit_user_in_count (tt tp : List Row) (kOpt : Option ℤ) :
    ∀ r ∈ (merge_ranking_core tt tp kOpt).dfHit,
      ∃ c ∈ (merge_ranking_core tt tp kOpt).dfHitCount, c.1 = r.1 := by
  intro r hr
  simp only [merge_ranking_core] at hr ⊢
  obtain ⟨q, _, t, ht, hreq, htu, _⟩ := mem_df_hit hr
  have hu1 : r.1 ∈ ((merge_ranking_core tt tp kOpt).dfHit.map
      (fun r => r.1)).dedup := by
    simp only [merge_ranking_core]
    exact List.mem_dedup.mpr (List.mem_map.mpr ⟨r, hr, rfl⟩)
  have hu2 : ((commonRows tt (commonUsersList tt tp)).map Row.user).contains
      r.1 = true := by
    apply List.elem_eq_true_of_mem
    exact List.mem_map.mpr ⟨t, ht, by rw [htu, hreq]⟩
  refine ⟨(r.1,
    ((df_hit_of (commonRows tt (commonUsersList tt tp))
        (get_top_k_items (commonRows tp (commonUsersList tt tp)) kOpt)).filter
      (fun x => x.1 = r.1)).length,
    (rowsOfUser (commonRows tt (commonUsersList tt tp)) r.1).length), ?_, rfl⟩
  rw [hitCountRows]
  apply List.mem_map.mpr
  refine ⟨r.1, ?_, rfl⟩
  apply List.mem_filter.mpr
  constructor
  · apply (List.perm_insertionSort _ _).mem_iff.mpr
    simpa only [merge_ranking_core] using hu1
  · simpa using hu2

/-- C10: in `ndcg_at_k` the division `DCG_u / IDCG_u` never divides by
zero — every user of the hit frame also appears in the hit-count frame,
every hit-count row has an actual count of at least 1, and for `k ≥ 1`
its ideal DCG is strictly positive. -/
theorem C10_idcg_pos (tt tp : List Row) (method : Option String)
    (k threshold : ℤ) (m : RankMerge) (hk : 1 ≤ k)
    (hmerge : merge_ranking_true_pred tt tp method k threshold = Except.ok m) :
    (∀ r ∈ m.dfHit, ∃ c ∈ m.dfHitCount, c.1 = r.1) ∧
    (∀ c ∈ m.dfHitCount, 1 ≤ c.2.2 ∧ 0 < idcg_val c.2.2 k) := by
  have hcases := merge_ok_inv hmerge
  constructor
  · rcases hcases with hm | hm | hm <;> subst hm <;>
      exact core_dfHit_user_in_count _ _ _
  · intro c hc
    have hact : 1 ≤ c.2.2 := by
      rcases hcases with hm | hm | hm <;> subst hm <;>
        exact hitCount_actual_pos c hc
    exact ⟨hact, idcg_pos hact hk⟩

/-- Witness for C10: on concrete typed tables, the hit users appear in
the hit-count frame and every row divides by a positive ideal DCG. -/
theorem C10_idcg_pos_witness :
    (∀ r ∈ ((⟨[(1, 10, 1), (1, 20, 2)], [(1, 2, 2)], 1⟩ : RankMerge)).dfHit,
      ∃ c ∈ ((⟨[(1, 10, 1), (1, 20, 2)], [(1, 2, 2)], 1⟩ : RankMerge)).dfHitCount,
        c.1 = r.1) ∧
    (∀ c ∈ ((⟨[(1, 10, 1), (1, 20, 2)], [(1, 2, 2)], 1⟩ : RankMerge)).dfHitCount,
      1 ≤ c.2.2 ∧ 0 < idcg_val c.2.2 2) :=
  C10_idcg_pos [⟨1, 10, 1⟩, ⟨1, 20, 1⟩] [⟨1, 10, 5⟩, ⟨1, 20, 4⟩]
    (some "top_k") 2 10 ⟨[(1, 10, 1), (1, 20, 2)], [(1, 2, 2)], 1⟩
    (by decide) (by decide)


/-! ### Helper lemmas: counting users -/

theorem length_le_of_nodup_subset {α : Type} [DecidableEq α] {l l2 : List α}
    (h1 : l.Nodup) (h2 : l ⊆ l2) (h3 : l2.Nodup) : l.length ≤ l2.length := by
  have hcard := Finset.card_le_card
    (fun a ha => List.mem_toFinset.mpr (h2 (List.mem_toFinset.mp ha)))
  rwa [List.toFinset_card_of_nodup h1, List.toFinset_card_of_nodup h3] at hcard

theorem common_nodup (tt tp : List Row) : (commonUsersList tt tp).Nodup :=
  List.Nodup.filter _ (List.nodup_dedup _)

/-- Every user of the hit frame is a common user. -/
theorem dfHit_user_mem_common (tt tp : List Row) (kOpt : Option ℤ) :
    ∀ r ∈ (merge_ranking_core tt tp kOpt).dfHit,
      r.1 ∈ commonUsersList tt tp := by
  intro r hr
  simp only [merge_ranking_core] at hr
  obtain ⟨q, _, t, ht, hreq, htu, _⟩ := mem_df_hit hr
  have hc := (List.mem_filter.mp ht).2
  have : t.user ∈ commonUsersList tt tp := by
    simp only [List.contains_eq_any_beq, List.any_eq_true] at hc
    obtain ⟨v, hv, hvu⟩ := hc
    rwa [show t.user = v from beq_iff_eq.mp hvu]
  rw [htu] at this
  rw [hreq]
  exact this

/-- The distinct hit users are at most the common users. -/
theorem dedup_hit_users_le (tt tp : List Row) (kOpt : Option ℤ) :
    (((merge_ranking_core tt tp kOpt).dfHit.map (fun r => r.1)).dedup).length ≤
      (commonUsersList tt tp).length := by
  apply length_le_of_nodup_subset (List.nodup_dedup _) _ (common_nodup tt tp)
  intro v hv
  obtain ⟨r, hr, hrv⟩ := List.mem_map.mp (List.mem_dedup.mp hv)
  exact hrv ▸ dfHit_user_mem_common tt tp kOpt r hr

/-- A nonempty hit frame forces at least one common user. -/
theorem nUsers_pos_of_dfHit (tt tp : List Row) (kOpt : Option ℤ)
    (h : (merge_ranking_core tt tp kOpt).dfHit ≠ []) :
    0 < (commonUsersList tt tp).length := by
  obtain ⟨r, hr⟩ := List.exists_mem_of_ne_nil _ h
  exact List.length_pos_of_mem (dfHit_user_mem_common tt tp kOpt r hr)

/-! ### Helper lemmas: per-user shape of the ranked frame -/

theorem sortUsers_nodup {us : List ℚ} (h : us.Nodup) : (sortUsers us).Nodup :=
  h.perm (List.perm_insertionSort _ _).symm

/-- The rows of the ranked frame, stripped of ranks: the per-user
`nlargest` blocks in ascending user order. -/
theorem topk_map_fst_some (df : List Row) (c : ℤ) :
    (get_top_k_items df (some c)).map Prod.fst =
      (sortUsers (usersOf df)).flatMap (fun u => nlargest c (rowsOfUser df u)) := by
  rw [get_top_k_items, List.map_flatMap]
  congr 1
  funext u
  rw [List.map_map]
  exact List.enum_map_snd _

/-- With the pass-through cut the ranked frame is the input frame. -/
theorem topk_map_fst_none (df : List Row) :
    (get_top_k_items df none).map Prod.fst = df := by
  rw [get_top_k_items, List.map_map]
  exact List.enum_map_snd _

/-- Rows of a user's ranked block carry that user. -/
theorem topk_block_user (df : List Row) (c : ℤ) (u : ℚ) :
    ∀ q ∈ (nlargest c (rowsOfUser df u)).enum.map
      (fun p => (p.2, p.1 + 1)), q.1.user = u := by
  intro q hq
  obtain ⟨p, hp, hqe⟩ := List.mem_map.mp hq
  subst hqe
  obtain ⟨i, x⟩ := p
  have hx := List.mem_enum hp
  simp only
  rw [hx.2]
  exact mem_nlargest_user (List.getElem_mem _)

/-- How many ranked rows a user has under the count cut: at most `c`. -/
theorem topk_filter_user_le (df : List Row) (c : ℤ) (u : ℚ) :
    ((get_top_k_items df (some c)).filter
      (fun q => q.1.user = u)).length ≤ c.toNat := by
  rw [get_top_k_items]
  by_cases hu : u ∈ sortUsers (usersOf df)
  · have hgf := grouped_filter_eq (fun q : Row × ℕ => q.1.user)
      (sortUsers (usersOf df))
      (fun w => (nlargest c (rowsOfUser df w)).enum.map (fun p => (p.2, p.1 + 1)))
      (topk_block_user df c) (sortUsers_nodup (List.nodup_dedup _)) u hu
    rw [hgf, List.length_map, List.enum_length]
    exact length_nlargest_le _ _
  · have hgf := grouped_filter_nil (fun q : Row × ℕ => q.1.user)
      (sortUsers (usersOf df))
      (fun w => (nlargest c (rowsOfUser df w)).enum.map (fun p => (p.2, p.1 + 1)))
      (topk_block_user df c) u hu
    rw [hgf]
    simp

/-! ### Helper lemmas: per-user hit counts -/

/-- The hit rows of user `u` counted through the ranked rows: each ranked
row of `u` contributes the number of matching true rows of `u`. -/
theorem df_hit_filter_eq_sum (ttc : List Row) (topk : List (Row × ℕ)) (u : ℚ) :
    ((df_hit_of ttc topk).filter (fun r => r.1 = u)).length =
      (((topk.map Prod.fst).filter (fun r => r.user = u)).map
        (fun r => ((rowsOfUser ttc u).filter
          (fun t => t.item = r.item)).length)).sum := by
  induction topk with
  | nil => simp [df_hit_of]
  | cons q l ih =>
    rw [df_hit_of] at ih ⊢
    rw [List.flatMap_cons, List.filter_append, List.length_append, ih,
      List.map_cons, List.filter_cons]
    by_cases hq : q.1.user = u
    · rw [if_pos (by simpa using hq), List.map_cons, List.sum_cons]
      congr 1
      have hall : ((ttc.filter (fun r =>
          r.user = q.1.user ∧ r.item = q.1.item)).map
          (fun _ => (q.1.user, q.1.item, q.2))).filter
          (fun r => r.1 = u) =
          (ttc.filter (fun r => r.user = q.1.user ∧ r.item = q.1.item)).map
          (fun _ => (q.1.user, q.1.item, q.2)) :=
        List.filter_eq_self.mpr (fun b hb => by
          obtain ⟨t, _, hbe⟩ := List.mem_map.mp hb
          subst hbe
          simp [hq])
      rw [hall, List.length_map]
      congr 1
      rw [rowsOfUser, List.filter_filter]
      apply List.filter_congr
      intro t _
      by_cases h1 : t.user = u <;> by_cases h2 : t.item = q.1.item <;>
        simp [h1, h2, hq]
    · rw [if_neg (by simpa using hq)]
      have hblock : (((ttc.filter (fun r =>
          r.user = q.1.user ∧ r.item = q.1.item)).map
          (fun _ => (q.1.user, q.1.item, q.2))).filter
          (fun r => r.1 = u)) = [] := by
        rw [List.filter_eq_nil_iff]
        intro b hb
        obtain ⟨t, _, hbe⟩ := List.mem_map.mp hb
        subst hbe
        simp [hq]
      rw [hblock, List.length_nil, zero_add]

/-- With a duplicate-free true table, a user's hit count is at most the
number of its ranked rows. -/
theorem df_hit_filter_le_topk (ttc : List Row) (topk : List (Row × ℕ))
    (u : ℚ) (hnd : NodupPairs ttc) :
    ((df_hit_of ttc topk).filter (fun r => r.1 = u)).length ≤
      ((topk.map Prod.fst).filter (fun r => r.user = u)).length := by
  rw [df_hit_filter_eq_sum]
  have hterm : ∀ r ∈ (topk.map Prod.fst).filter (fun r => r.user = u),
      ((rowsOfUser ttc u).filter (fun t => t.item = r.item)).length ≤ 1 := by
    intro r hr
    have := count_pair_le_one hnd u r.item
    calc ((rowsOfUser ttc u).filter (fun t => t.item = r.item)).length
        = (ttc.filter (fun t => t.user = u ∧ t.item = r.item)).length := by
          rw [rowsOfUser, List.filter_filter]
          congr 1
          apply List.filter_congr
          intro t _
          by_cases h1 : t.user = u <;> by_cases h2 : t.item = r.item <;>
            simp [h1, h2]
      _ ≤ 1 := this
  calc (((topk.map Prod.fst).filter (fun r => r.user = u)).map
        (fun r => ((rowsOfUser ttc u).filter
          (fun t => t.item = r.item)).length)).sum
      ≤ (((topk.map Prod.fst).filter (fun r => r.user = u)).map
        (fun r => ((rowsOfUser ttc u).filter
          (fun t => t.item = r.item)).length)).length • 1 :=
        List.sum_le_card_nsmul _ 1 (by
          intro x hx
          obtain ⟨r, hr, hxe⟩ := List.mem_map.mp hx
          exact hxe ▸ hterm r hr)
    _ = ((topk.map Prod.fst).filter (fun r => r.user = u)).length := by
        rw [List.length_map, smul_eq_mul, mul_one]

/-- With duplicate-free items among a user's ranked rows, a user's hit
count is at most its actual count. -/
theorem df_hit_filter_le_actual (ttc : List Row) (topk : List (Row × ℕ))
    (u : ℚ)
    (hnd : (((topk.map Prod.fst).filter
      (fun r => r.user = u)).map Row.item).Nodup) :
    ((df_hit_of ttc topk).filter (fun r => r.1 = u)).length ≤
      (rowsOfUser ttc u).length := by
  rw [df_hit_filter_eq_sum]
  have hrw : (((topk.map Prod.fst).filter (fun r => r.user = u)).map
        (fun r => ((rowsOfUser ttc u).filter
          (fun t => t.item = r.item)).length)) =
      ((((topk.map Prod.fst).filter (fun r => r.user = u)).map Row.item).map
        (fun i => ((rowsOfUser ttc u).filter
          (fun t => t.item = i)).length)) := by
    rw [List.map_map]
    rfl
  rw [hrw]
  exact sum_filter_length_le Row.item (rowsOfUser ttc u) _ hnd


/-- Items of a user's ranked rows are distinct when the predicted table
has no duplicate pairs (all three cuts). -/
theorem topk_items_nodup (df : List Row) (kOpt : Option ℤ)
    (hndp : NodupPairs df) (u : ℚ) :
    ((((get_top_k_items df kOpt).map Prod.fst).filter
      (fun r => r.user = u)).map Row.item).Nodup := by
  cases kOpt with
  | none =>
    rw [topk_map_fst_none]
    exact rowsOfUser_items_nodup hndp u
  | some c =>
    rw [topk_map_fst_some]
    by_cases hu : u ∈ sortUsers (usersOf df)
    · have hgf := grouped_filter_eq Row.user (sortUsers (usersOf df))
        (fun w => nlargest c (rowsOfUser df w))
        (fun w r hr => mem_nlargest_user hr)
        (sortUsers_nodup (List.nodup_dedup _)) u hu
      rw [hgf]
      exact nlargest_items_nodup hndp u c
    · have hgf := grouped_filter_nil Row.user (sortUsers (usersOf df))
        (fun w => nlargest c (rowsOfUser df w))
        (fun w r hr => mem_nlargest_user hr) u hu
      rw [hgf]
      simp

/-- Bounded terms averaged over at least as many users stay below one. -/
theorem sum_div_le_one {β : Type} (rows : List β) (f : β → ℚ) (n : ℕ)
    (hterm : ∀ c ∈ rows, f c ≤ 1) (hlen : rows.length ≤ n) (hn : 0 < n) :
    (rows.map f).sum / (n : ℚ) ≤ 1 := by
  rw [div_le_one (by exact_mod_cast hn)]
  calc (rows.map f).sum ≤ (rows.map f).length • (1 : ℚ) :=
        List.sum_le_card_nsmul _ 1 (by
          intro x hx
          obtain ⟨c, hc, hxe⟩ := List.mem_map.mp hx
          exact hxe ▸ hterm c hc)
    _ = (rows.length : ℚ) := by rw [List.length_map, nsmul_eq_mul, mul_one]
    _ ≤ (n : ℚ) := by exact_mod_cast hlen

/-- A validation success means the wrapped function succeeded on the
typed projections. -/
theorem check_ok_inv {α : Type} {f : List Row → List Row → Except String α}
    {rt rp : RawTable} {cu ci cr cp : String} {v : α}
    (h : check_column_dtypes f rt rp cu ci cr cp = Except.ok v) :
    f (extractCols rt cu ci cr) (extractCols rp cu ci cp) = Except.ok v := by
  rw [check_column_dtypes] at h
  by_cases h1 : ¬ has_columns rt [cu, ci, cr]
  · rw [if_pos h1] at h
    exact absurd h (by simp)
  · rw [if_neg h1] at h
    by_cases h2 : ¬ has_columns rp [cu, ci, cp]
    · rw [if_pos h2] at h
      exact absurd h (by simp)
    · rw [if_neg h2] at h
      by_cases h3 : ¬ has_same_base_dtype rt rp [cu, ci]
      · rw [if_pos h3] at h
        exact absurd h (by simp)
      · rw [if_neg h3] at h
        exact h

/-- Precision of the merged core under the `top_k` cut is at most one. -/
theorem precision_from_le_one (tt tp : List Row) (k : ℤ) (hk : 1 ≤ k)
    (hndt : NodupPairs tt) :
    precision_from (merge_ranking_core tt tp (some k)) k ≤ 1 := by
  have e1 : (merge_ranking_core tt tp (some k)).dfHit =
      df_hit_of (commonRows tt (commonUsersList tt tp))
        (get_top_k_items (commonRows tp (commonUsersList tt tp)) (some k)) := rfl
  have e2 : (merge_ranking_core tt tp (some k)).dfHitCount =
      hitCountRows
        (df_hit_of (commonRows tt (commonUsersList tt tp))
          (get_top_k_items (commonRows tp (commonUsersList tt tp)) (some k)))
        (commonRows tt (commonUsersList tt tp)) := rfl
  have e3 : (merge_ranking_core tt tp (some k)).nUsers =
      (commonUsersList tt tp).length := rfl
  rw [precision_from]
  by_cases hnil : (merge_ranking_core tt tp (some k)).dfHit = []
  · rw [if_pos hnil]
    norm_num
  · rw [if_neg hnil, e2, e3]
    have hkpos : (0 : ℚ) < (k : ℚ) := by
      have h0 : (0 : ℤ) < k := by omega
      exact_mod_cast h0
    apply sum_div_le_one
    · intro c hc
      obtain ⟨u, hceq, _, _⟩ := mem_hitCountRows hc
      rw [div_le_one hkpos]
      have hle1 : ((df_hit_of (commonRows tt (commonUsersList tt tp))
          (get_top_k_items (commonRows tp (commonUsersList tt tp)) (some k))).filter
          (fun r => r.1 = u)).length ≤
          (((get_top_k_items (commonRows tp (commonUsersList tt tp))
            (some k)).map Prod.fst).filter (fun r => r.user = u)).length :=
        df_hit_filter_le_topk _ _ u (hndt.sublist (List.filter_sublist _))
      have hle2 : (((get_top_k_items (commonRows tp (commonUsersList tt tp))
          (some k)).map Prod.fst).filter (fun r => r.user = u)).length ≤
          k.toNat := by
        rw [List.filter_map, List.length_map]
        exact topk_filter_user_le _ _ _
      have hc21 : c.2.1 ≤ k.toNat := by
        rw [hceq]
        exact le_trans hle1 hle2
      have hcast : (c.2.1 : ℤ) ≤ k := by omega
      exact_mod_cast hcast
    · exact le_trans (hitCountRows_length_le _ _) (by
        have := dedup_hit_users_le tt tp (some k)
        rwa [e1] at this)
    · exact nUsers_pos_of_dfHit tt tp (some k) hnil

/-- Recall of the merged core is at most one for every cut. -/
theorem recall_from_le_one (tt tp : List Row) (kOpt : Option ℤ)
    (hndt : NodupPairs tt) (hndp : NodupPairs tp) :
    recall_from (merge_ranking_core tt tp kOpt) ≤ 1 := by
  have e1 : (merge_ranking_core tt tp kOpt).dfHit =
      df_hit_of (commonRows tt (commonUsersList tt tp))
        (get_top_k_items (commonRows tp (commonUsersList tt tp)) kOpt) := rfl
  have e2 : (merge_ranking_core tt tp kOpt).dfHitCount =
      hitCountRows
        (df_hit_of (commonRows tt (commonUsersList tt tp))
          (get_top_k_items (commonRows tp (commonUsersList tt tp)) kOpt))
        (commonRows tt (commonUsersList tt tp)) := rfl
  have e3 : (merge_ranking_core tt tp kOpt).nUsers =
      (commonUsersList tt tp).length := rfl
  rw [recall_from]
  by_cases hnil : (merge_ranking_core tt tp kOpt).dfHit = []
  · rw [if_pos hnil]
    norm_num
  · rw [if_neg hnil, e2, e3]
    apply sum_div_le_one
    · intro c hc
      obtain ⟨u, hceq, _, t, ht, htu⟩ := mem_hitCountRows hc
      have hactpos : 0 < (rowsOfUser
          (commonRows tt (commonUsersList tt tp)) u).length :=
        List.length_pos_of_mem (List.mem_filter.mpr ⟨ht, by simp [htu]⟩)
      have hhit : ((df_hit_of (commonRows tt (commonUsersList tt tp))
          (get_top_k_items (commonRows tp (commonUsersList tt tp)) kOpt)).filter
          (fun r => r.1 = u)).length ≤
          (rowsOfUser (commonRows tt (commonUsersList tt tp)) u).length :=
        df_hit_filter_le_actual _ _ u
          (topk_items_nodup _ kOpt (hndp.sublist (List.filter_sublist _)) u)
      rw [hceq]
      rw [div_le_one (by exact_mod_cast hactpos)]
      exact_mod_cast hhit
    · exact le_trans (hitCountRows_length_le _ _) (by
        have := dedup_hit_users_le tt tp kOpt
        rwa [e1] at this)
    · exact nUsers_pos_of_dfHit tt tp kOpt hnil

/-- C3 (amended): on duplicate-free tables with `k ≥ 1`,
`precision_at_k` with `relevancy_method="top_k"` never exceeds 1, and
`recall_at_k` never exceeds 1 under every relevancy method. -/
theorem C3_bounds (rt rp : RawTable) (cu ci cr cp : String) (k threshold : ℤ)
    (hk : 1 ≤ k) (hndt : NodupPairs (extractCols rt cu ci cr))
    (hndp : NodupPairs (extractCols rp cu ci cp)) :
    (∀ v : ℚ, precision_at_k rt rp cu ci cr cp (some "top_k") k threshold =
      Except.ok v → v ≤ 1) ∧
    (∀ (method : Option String) (v : ℚ),
      recall_at_k rt rp cu ci cr cp method k threshold = Except.ok v →
        v ≤ 1) := by
  constructor
  · intro v hv
    have h2 := check_ok_inv hv
    rw [merge_ranking_true_pred, if_pos rfl] at h2
    have h3 : precision_from (merge_ranking_core (extractCols rt cu ci cr)
        (extractCols rp cu ci cp) (some k)) k = v := by
      simpa [Except.map] using h2
    rw [← h3]
    exact precision_from_le_one _ _ k hk hndt
  · intro method v hv
    have h2 := check_ok_inv hv
    cases hm : merge_ranking_true_pred (extractCols rt cu ci cr)
        (extractCols rp cu ci cp) method k threshold with
    | error e =>
      rw [hm] at h2
      exact absurd h2 (by simp [Except.map])
    | ok m =>
      rw [hm] at h2
      have hfv : recall_from m = v := by
        simpa [Except.map] using h2
      rcases merge_ok_inv hm with h | h | h <;> subst h <;> rw [← hfv] <;>
        exact recall_from_le_one _ _ _ hndt hndp

/-- Witness for C3: on the fixtures with `k = 2` the top-k precision is
exactly 1, and the theorem bounds it by 1. -/
theorem C3_bounds_witness :
    (1 : ℚ) ≤ 1 ∧
    precision_at_k tTrue2 tPred2 "userID" "itemID" "rating" "prediction"
      (some "top_k") 2 10 = Except.ok 1 := by
  have heval : precision_at_k tTrue2 tPred2 "userID" "itemID" "rating"
      "prediction" (some "top_k") 2 10 = Except.ok 1 := by
    have h : merge_ranking_true_pred
        (extractCols tTrue2 "userID" "itemID" "rating")
        (extractCols tPred2 "userID" "itemID" "prediction")
        (some "top_k") 2 10 =
        Except.ok ⟨[(1, 10, 1), (1, 20, 2)], [(1, 2, 2)], 1⟩ := by decide
    rw [precision_at_k, check_column_dtypes_pass _ tTrue2 tPred2
      "userID" "itemID" "rating" "prediction" (by decide), h]
    norm_num [Except.map, precision_from]
    decide
  exact ⟨(C3_bounds tTrue2 tPred2 "userID" "itemID" "rating" "prediction"
    2 10 (by decide) (by decide) (by decide)).1 1 heval, heval⟩


/-! ### Helper lemmas for the NDCG refinement -/

theorem map_eq_flatMap_singleton {α β : Type} (f : α → β) (l : List α) :
    l.map f = l.flatMap (fun x => [f x]) := by
  induction l with
  | nil => rfl
  | cons a l ih => rw [List.map_cons, List.flatMap_cons, ih]; rfl

theorem flatMap_eq_map {α β : Type} (l : List α) (f : α → List β) (g : α → β)
    (h : ∀ a ∈ l, f a = [g a]) : l.flatMap f = l.map g := by
  induction l with
  | nil => rfl
  | cons a l ih =>
    rw [List.flatMap_cons, List.map_cons, h a (List.mem_cons_self a l),
      ih (fun b hb => h b (List.mem_cons_of_mem a hb))]
    rfl

/-- Filtering a keyed `map` by a present key gives the singleton row. -/
theorem keyed_filter_eq {β : Type} (key : β → ℚ) (g : ℚ → β) (ulist : List ℚ)
    (hkey : ∀ w, key (g w) = w) (hnd : ulist.Nodup) (u : ℚ) (hu : u ∈ ulist) :
    (ulist.map g).filter (fun b => key b = u) = [g u] := by
  rw [map_eq_flatMap_singleton]
  exact grouped_filter_eq key ulist (fun w => [g w])
    (by
      intro w b hb
      rw [List.mem_singleton.mp hb]
      exact hkey w)
    hnd u hu

/-- Vanishing terms may be dropped from a sum. -/
theorem sum_map_eq_sum_filter0 {M : Type} [AddCommMonoid M] (l : List ℚ)
    (p : ℚ → Bool) (f : ℚ → M) (h : ∀ u ∈ l, p u = false → f u = 0) :
    (l.map f).sum = ((l.filter p).map f).sum := by
  induction l with
  | nil => rfl
  | cons a l ih =>
    rw [List.map_cons, List.sum_cons, List.filter_cons]
    by_cases hp : p a = true
    · rw [if_pos hp, List.map_cons, List.sum_cons,
        ih (fun u hu => h u (List.mem_cons_of_mem a hu))]
    · rw [if_neg hp, h a (List.mem_cons_self a l) (Bool.eq_false_iff.mpr hp),
        zero_add, ih (fun u hu => h u (List.mem_cons_of_mem a hu))]

/-- A hit-frame sum over a function of the rank, expressed through the
ranked rows: each ranked row contributes its match count times its
term. -/
theorem df_hit_map_sum (ttc : List Row) (topkl : List (Row × ℕ)) (g : ℕ → ℝ) :
    ((df_hit_of ttc topkl).map (fun r => g r.2.2)).sum =
      (topkl.map (fun q =>
        ((ttc.filter (fun r =>
          r.user = q.1.user ∧ r.item = q.1.item)).length : ℝ) * g q.2)).sum := by
  induction topkl with
  | nil => simp [df_hit_of]
  | cons q l ih =>
    rw [df_hit_of] at ih ⊢
    rw [List.flatMap_cons, List.map_append, List.sum_append, ih,
      List.map_cons, List.sum_cons]
    congr 1
    rw [List.map_map]
    have hconst : ((fun r : ℚ × ℚ × ℕ => g r.2.2) ∘
        (fun _ : Row => (q.1.user, q.1.item, q.2))) =
        Function.const Row (g q.2) := rfl
    rw [hconst, List.map_const, List.sum_replicate, nsmul_eq_mul]

/-- A per-user item filter is a pair filter on the whole table. -/
theorem rowsOfUser_filter_item (ttc : List Row) (u i : ℚ) :
    (rowsOfUser ttc u).filter (fun t => t.item = i) =
      ttc.filter (fun t => t.user = u ∧ t.item = i) := by
  rw [rowsOfUser, List.filter_filter]
  apply List.filter_congr
  intro t _
  by_cases h1 : t.user = u <;> by_cases h2 : t.item = i <;> simp [h1, h2]

/-- With a duplicate-free true table, a ranked row's contribution is the
indicator of its item being a true item of the user. -/
theorem dcg_term_eq (ttc : List Row) (u : ℚ) (hnd : NodupPairs ttc)
    (q : Row) (hqu : q.user = u) (x : ℝ) :
    ((ttc.filter (fun t => t.user = q.user ∧ t.item = q.item)).length : ℝ) * x =
    if (rowsOfUser ttc u).any (fun t => t.item = q.item) then x else 0 := by
  rw [hqu, ← rowsOfUser_filter_item]
  rcases hfe : (rowsOfUser ttc u).filter (fun t => t.item = q.item) with
    _ | ⟨a, l2⟩
  · have hany : (rowsOfUser ttc u).any (fun t => t.item = q.item) = false := by
      rw [List.any_eq_false]
      intro t ht
      exact List.filter_eq_nil_iff.mp hfe t ht
    rw [hfe, hany]
    simp
  · have hle : ((rowsOfUser ttc u).filter
        (fun t => t.item = q.item)).length ≤ 1 := by
      rw [rowsOfUser_filter_item]
      exact count_pair_le_one hnd u q.item
    rw [hfe] at hle
    have hl2 : l2 = [] := by
      have := List.length_cons a l2 ▸ hle
      exact List.length_eq_zero.mp (by omega)
    have hamem : a ∈ (rowsOfUser ttc u).filter (fun t => t.item = q.item) := by
      rw [hfe, hl2]
      exact List.mem_singleton.mpr rfl
    have hany : (rowsOfUser ttc u).any (fun t => t.item = q.item) = true := by
      rw [List.any_eq_true]
      exact ⟨a, (List.mem_filter.mp hamem).1, (List.mem_filter.mp hamem).2⟩
    rw [hfe, hl2, hany]
    simp

/-- Per-user hit DCG equals the spec's per-user indicator sum. -/
theorem dcg_block_eq (ttc tpc : List Row) (k : ℤ) (u : ℚ)
    (hnd : NodupPairs ttc) :
    ((df_hit_of ttc ((nlargest k (rowsOfUser tpc u)).enum.map
        (fun p => (p.2, p.1 + 1)))).map
      (fun r => 1 / Real.log (1 + (r.2.2 : ℝ)))).sum =
    ((nlargest k (rowsOfUser tpc u)).enum.map (fun p =>
      if (rowsOfUser ttc u).any (fun t => t.item = p.2.item) then
        (1 : ℝ) / Real.log (1 + ((p.1 : ℝ) + 1))
      else 0)).sum := by
  rw [df_hit_map_sum ttc _ (fun n => 1 / Real.log (1 + (n : ℝ))),
    List.map_map]
  apply congrArg List.sum
  apply List.map_congr_left
  intro p hp
  have hpu : p.2.user = u := by
    obtain ⟨i, x⟩ := p
    have hx := List.mem_enum hp
    simp only
    rw [hx.2]
    exact mem_nlargest_user (List.getElem_mem _)
  have := dcg_term_eq ttc u hnd p.2 hpu (1 / Real.log (1 + ((p.1 : ℝ) + 1)))
  simp only [Function.comp]
  rw [show ((((p.1 + 1) : ℕ) : ℝ)) = ((p.1 : ℝ) + 1) by push_cast; ring]
  exact this


/-- The hit frame decomposes into per-user hit blocks. -/
theorem df_hit_decomp (ttc tpc : List Row) (k : ℤ) :
    df_hit_of ttc (get_top_k_items tpc (some k)) =
      (sortUsers (usersOf tpc)).flatMap (fun u =>
        df_hit_of ttc ((nlargest k (rowsOfUser tpc u)).enum.map
          (fun p => (p.2, p.1 + 1)))) := by
  rw [get_top_k_items, df_hit_of, List.flatMap_assoc]
  rfl

/-- Rows of a user's hit block carry that user. -/
theorem block_hit_user (ttc tpc : List Row) (k : ℤ) (u : ℚ) :
    ∀ r ∈ df_hit_of ttc ((nlargest k (rowsOfUser tpc u)).enum.map
      (fun p => (p.2, p.1 + 1))), r.1 = u := by
  intro r hr
  obtain ⟨q, hq, t, ht, hreq, htu, hti⟩ := mem_df_hit hr
  rw [hreq]
  exact topk_block_user tpc k u q hq

/-- Hit-count keys are exactly the distinct hit users, provided every
hit user has a true row. -/
theorem mem_ulist_iff (dfHit : List (ℚ × ℚ × ℕ)) (ttc : List Row)
    (hsub : ∀ r ∈ dfHit, ∃ t ∈ ttc, t.user = r.1) (u : ℚ) :
    u ∈ (sortUsers ((dfHit.map (fun r => r.1)).dedup)).filter
      (fun w => (ttc.map Row.user).contains w) ↔
    u ∈ (dfHit.map (fun r => r.1)).dedup := by
  constructor
  · intro hu
    exact (List.perm_insertionSort _ _).mem_iff.mp (List.mem_filter.mp hu).1
  · intro hu
    apply List.mem_filter.mpr
    refine ⟨(List.perm_insertionSort _ _).mem_iff.mpr hu, ?_⟩
    obtain ⟨r, hr, hru⟩ := List.mem_map.mp (List.mem_dedup.mp hu)
    obtain ⟨t, ht, htu⟩ := hsub r hr
    apply List.elem_eq_true_of_mem
    exact List.mem_map.mpr ⟨t, ht, by rw [htu, hru]⟩

/-- Closed form of `ndcg_from` on a nonempty hit frame. -/
theorem ndcg_from_expand (m : RankMerge) (k : ℤ) (h : ¬ m.dfHit = []) :
    ndcg_from m k =
      (((m.dfHit.map (fun r => r.1)).dedup).flatMap (fun u =>
        (m.dfHitCount.filter (fun c => c.1 = u)).map (fun c =>
          ((m.dfHit.filter (fun r => r.1 = u)).map
            (fun r => 1 / Real.log (1 + (r.2.2 : ℝ)))).sum /
            idcg_val c.2.2 k))).sum / (m.nUsers : ℝ) := by
  simp only [ndcg_from]
  rw [if_neg h, List.flatMap_map]

/-- The act of a user in a duplicate-free table, by distinct items or by
rows. -/
theorem act_eq (ttc : List Row) (u : ℚ) (hnd : NodupPairs ttc) :
    ((rowsOfUser ttc u).map Row.item).dedup.length =
      (rowsOfUser ttc u).length := by
  rw [List.dedup_eq_self.mpr (rowsOfUser_items_nodup hnd u), List.length_map]

/-- Per-user DCG of the merged core equals the spec's per-user indicator
sum, for every user. -/
theorem dcg_user_eq (tt tp : List Row) (k : ℤ) (hndt : NodupPairs tt)
    (u : ℚ) :
    (((df_hit_of (commonRows tt (commonUsersList tt tp))
        (get_top_k_items (commonRows tp (commonUsersList tt tp)) (some k))).filter
        (fun r => r.1 = u)).map
      (fun r => 1 / Real.log (1 + (r.2.2 : ℝ)))).sum =
    ((nlargest k (rowsOfUser (commonRows tp (commonUsersList tt tp)) u)).enum.map
      (fun p =>
        if (rowsOfUser (commonRows tt (commonUsersList tt tp)) u).any
            (fun t => t.item = p.2.item) then
          (1 : ℝ) / Real.log (1 + ((p.1 : ℝ) + 1))
        else 0)).sum := by
  have hndttc : NodupPairs (commonRows tt (commonUsersList tt tp)) :=
    hndt.sublist (List.filter_sublist _)
  by_cases hu : u ∈ sortUsers (usersOf (commonRows tp (commonUsersList tt tp)))
  · have hgf := grouped_filter_eq (fun r : ℚ × ℚ × ℕ => r.1)
      (sortUsers (usersOf (commonRows tp (commonUsersList tt tp))))
      (fun w => df_hit_of (commonRows tt (commonUsersList tt tp))
        ((nlargest k (rowsOfUser (commonRows tp (commonUsersList tt tp))
          w)).enum.map (fun p => (p.2, p.1 + 1))))
      (block_hit_user _ _ k) (sortUsers_nodup (List.nodup_dedup _)) u hu
    rw [df_hit_decomp, hgf]
    exact dcg_block_eq _ _ k u hndttc
  · have hgf := grouped_filter_nil (fun r : ℚ × ℚ × ℕ => r.1)
      (sortUsers (usersOf (commonRows tp (commonUsersList tt tp))))
      (fun w => df_hit_of (commonRows tt (commonUsersList tt tp))
        ((nlargest k (rowsOfUser (commonRows tp (commonUsersList tt tp))
          w)).enum.map (fun p => (p.2, p.1 + 1))))
      (block_hit_user _ _ k) u hu
    rw [df_hit_decomp, hgf]
    have hrows : rowsOfUser (commonRows tp (commonUsersList tt tp)) u = [] := by
      rw [rowsOfUser, List.filter_eq_nil_iff]
      intro r hr
      simp only [decide_eq_true_eq]
      intro hru
      apply hu
      apply (List.perm_insertionSort _ _).mem_iff.mpr
      exact List.mem_dedup.mpr (List.mem_map.mpr ⟨r, hr, hru⟩)
    rw [hrows]
    simp [nlargest]

set_option maxHeartbeats 1600000 in
/-- C7 core: on a duplicate-free true table with at least one hit, the
computed NDCG equals the spec formula. -/
theorem ndcg_from_eq_spec (tt tp : List Row) (k : ℤ) (hndt : NodupPairs tt)
    (hhit : ¬ (merge_ranking_core tt tp (some k)).dfHit = []) :
    ndcg_from (merge_ranking_core tt tp (some k)) k = ndcg_spec tt tp k := by
  have hndttc : NodupPairs (commonRows tt (commonUsersList tt tp)) :=
    hndt.sublist (List.filter_sublist _)
  have e1 : (merge_ranking_core tt tp (some k)).dfHit =
      df_hit_of (commonRows tt (commonUsersList tt tp))
        (get_top_k_items (commonRows tp (commonUsersList tt tp)) (some k)) := rfl
  have e2 : (merge_ranking_core tt tp (some k)).dfHitCount =
      hitCountRows
        (df_hit_of (commonRows tt (commonUsersList tt tp))
          (get_top_k_items (commonRows tp (commonUsersList tt tp)) (some k)))
        (commonRows tt (commonUsersList tt tp)) := rfl
  have e3 : (merge_ranking_core tt tp (some k)).nUsers =
      (commonUsersList tt tp).length := rfl
  have hsub : ∀ r ∈ df_hit_of (commonRows tt (commonUsersList tt tp))
      (get_top_k_items (commonRows tp (commonUsersList tt tp)) (some k)),
      ∃ t ∈ commonRows tt (commonUsersList tt tp), t.user = r.1 := by
    intro r hr
    obtain ⟨q, _, t, ht, hreq, htu, _⟩ := mem_df_hit hr
    exact ⟨t, ht, by rw [htu, hreq]⟩
  rw [ndcg_from_expand _ _ hhit, e1, e2, e3]
  have hflat : ((df_hit_of (commonRows tt (commonUsersList tt tp))
      (get_top_k_items (commonRows tp (commonUsersList tt tp)) (some k))).map
        (fun r => r.1)).dedup.flatMap (fun u =>
        ((hitCountRows
          (df_hit_of (commonRows tt (commonUsersList tt tp))
            (get_top_k_items (commonRows tp (commonUsersList tt tp)) (some k)))
          (commonRows tt (commonUsersList tt tp))).filter
            (fun c => c.1 = u)).map (fun c =>
          (((df_hit_of (commonRows tt (commonUsersList tt tp))
            (get_top_k_items (commonRows tp (commonUsersList tt tp))
              (some k))).filter (fun r => r.1 = u)).map
            (fun r => 1 / Real.log (1 + (r.2.2 : ℝ)))).sum /
            idcg_val c.2.2 k)) =
      ((df_hit_of (commonRows tt (commonUsersList tt tp))
        (get_top_k_items (commonRows tp (commonUsersList tt tp)) (some k))).map
          (fun r => r.1)).dedup.map (fun u =>
          (((df_hit_of (commonRows tt (commonUsersList tt tp))
            (get_top_k_items (commonRows tp (commonUsersList tt tp))
              (some k))).filter (fun r => r.1 = u)).map
            (fun r => 1 / Real.log (1 + (r.2.2 : ℝ)))).sum /
            idcg_val (rowsOfUser (commonRows tt (commonUsersList tt tp))
              u).length k) := by
    apply flatMap_eq_map
    intro u hu
    have hkf := keyed_filter_eq (fun c : ℚ × ℕ × ℕ => c.1)
      (fun w => (w, ((df_hit_of (commonRows tt (commonUsersList tt tp))
          (get_top_k_items (commonRows tp (commonUsersList tt tp))
            (some k))).filter (fun r => r.1 = w)).length,
        (rowsOfUser (commonRows tt (commonUsersList tt tp)) w).length))
      ((sortUsers (((df_hit_of (commonRows tt (commonUsersList tt tp))
          (get_top_k_items (commonRows tp (commonUsersList tt tp))
            (some k))).map (fun r => r.1)).dedup)).filter
        (fun w => ((commonRows tt (commonUsersList tt tp)).map
          Row.user).contains w))
      (fun w => rfl)
      (by
        apply List.Nodup.filter
        exact sortUsers_nodup (List.nodup_dedup _))
      u ((mem_ulist_iff _ _ hsub u).mpr hu)
    rw [hitCountRows, hkf]
    rfl
  rw [hflat]
  simp only [ndcg_spec]
  congr 1
  have hmap : (commonUsersList tt tp).map (fun u =>
      (((df_hit_of (commonRows tt (commonUsersList tt tp))
        (get_top_k_items (commonRows tp (commonUsersList tt tp))
          (some k))).filter (fun r => r.1 = u)).map
        (fun r => 1 / Real.log (1 + (r.2.2 : ℝ)))).sum /
        idcg_val (rowsOfUser (commonRows tt (commonUsersList tt tp))
          u).length k) =
      (commonUsersList tt tp).map (fun u =>
        ((nlargest k (rowsOfUser (commonRows tp (commonUsersList tt tp))
          u)).enum.map (fun p =>
            if (rowsOfUser (commonRows tt (commonUsersList tt tp)) u).any
                (fun t => t.item = p.2.item) then
              (1 : ℝ) / Real.log (1 + ((p.1 : ℝ) + 1))
            else 0)).sum /
        ((List.range (min
          ((((rowsOfUser (commonRows tt (commonUsersList tt tp)) u).map
            Row.item).dedup.length : ℕ) : ℤ) k).toNat).map
          (fun j : ℕ => (1 : ℝ) / Real.log (1 + ((j : ℝ) + 1)))).sum) := by
    apply List.map_congr_left
    intro u _
    rw [dcg_user_eq tt tp k hndt u, act_eq _ u hndttc, idcg_val]
  rw [← hmap]
  have hvanish : ∀ u ∈ commonUsersList tt tp,
      (decide (u ∈ ((df_hit_of (commonRows tt (commonUsersList tt tp))
        (get_top_k_items (commonRows tp (commonUsersList tt tp))
          (some k))).map (fun r => r.1)).dedup) = false) →
      (((df_hit_of (commonRows tt (commonUsersList tt tp))
        (get_top_k_items (commonRows tp (commonUsersList tt tp))
          (some k))).filter (fun r => r.1 = u)).map
        (fun r => 1 / Real.log (1 + (r.2.2 : ℝ)))).sum /
        idcg_val (rowsOfUser (commonRows tt (commonUsersList tt tp))
          u).length k = 0 := by
    intro u _ hdec
    have hnot : u ∉ ((df_hit_of (commonRows tt (commonUsersList tt tp))
        (get_top_k_items (commonRows tp (commonUsersList tt tp))
          (some k))).map (fun r => r.1)).dedup := by
      simpa using hdec
    have hfil : (df_hit_of (commonRows tt (commonUsersList tt tp))
        (get_top_k_items (commonRows tp (commonUsersList tt tp))
          (some k))).filter (fun r => r.1 = u) = [] := by
      rw [List.filter_eq_nil_iff]
      intro r hr
      simp only [decide_eq_true_eq]
      intro hru
      exact hnot (List.mem_dedup.mpr (List.mem_map.mpr ⟨r, hr, hru⟩))
    rw [hfil]
    simp
  rw [sum_map_eq_sum_filter0 (commonUsersList tt tp)
    (fun u => decide (u ∈ ((df_hit_of (commonRows tt (commonUsersList tt tp))
      (get_top_k_items (commonRows tp (commonUsersList tt tp))
        (some k))).map (fun r => r.1)).dedup)) _ hvanish]
  apply List.Perm.sum_eq
  apply List.Perm.map
  apply List.perm_of_nodup_nodup_toFinset_eq
  · exact List.nodup_dedup _
  · exact List.Nodup.filter _ (common_nodup tt tp)
  · ext v
    simp only [List.mem_toFinset, List.mem_filter, decide_eq_true_eq]
    constructor
    · intro hv
      refine ⟨?_, hv⟩
      obtain ⟨r, hr, hrv⟩ := List.mem_map.mp (List.mem_dedup.mp hv)
      have := dfHit_user_mem_common tt tp (some k) r hr
      rwa [hrv] at this
    · intro hv
      exact hv.2


/-- C7: on validated, duplicate-free tables with at least one hit,
`ndcg_at_k` under the `top_k` relevancy method returns exactly
`(Σ_u DCG_u / IDCG_u) / n_users` as worded by the spec: per common user
`u`, `DCG_u` sums `1/log(1+rank)` over u's hit items ranked within u's
top-k predictions, `IDCG_u` sums `1/log(1+j)` for `j` from 1 to
`min(actual_u, k)` with `actual_u` the number of u's true items, and
`n_users` is the number of users common to both tables. -/
theorem C7_ndcg_formula (rt rp : RawTable) (cu ci cr cp : String)
    (k threshold : ℤ) (hpass : checksPass rt rp cu ci cr cp)
    (hndt : NodupPairs (extractCols rt cu ci cr))
    (hhit : ¬ (merge_ranking_core (extractCols rt cu ci cr)
      (extractCols rp cu ci cp) (some k)).dfHit = []) :
    ndcg_at_k rt rp cu ci cr cp (some "top_k") k threshold =
      Except.ok (ndcg_spec (extractCols rt cu ci cr)
        (extractCols rp cu ci cp) k) := by
  rw [ndcg_at_k, check_column_dtypes_pass _ rt rp cu ci cr cp hpass,
    merge_ranking_true_pred, if_pos rfl]
  simp only [Except.map]
  rw [ndcg_from_eq_spec _ _ k hndt hhit]

/-- Witness for C7: on the fixtures with `k = 2`, the computed NDCG
equals the spec formula. -/
theorem C7_ndcg_formula_witness :
    ndcg_at_k tTrue2 tPred2 "userID" "itemID" "rating" "prediction"
      (some "top_k") 2 10 =
      Except.ok (ndcg_spec (extractCols tTrue2 "userID" "itemID" "rating")
        (extractCols tPred2 "userID" "itemID" "prediction") 2) :=
  C7_ndcg_formula tTrue2 tPred2 "userID" "itemID" "rating" "prediction" 2 10
    (by decide) (by decide) (by decide)


/-! ### Helper lemmas for the diversity-user claim -/

theorem two_le_dedup_of_ne {α : Type} [DecidableEq α] {l : List α} {x y : α}
    (hx : x ∈ l) (hy : y ∈ l) (hne : x ≠ y) : 2 ≤ l.dedup.length := by
  have hsub : ({x, y} : Finset α) ⊆ l.toFinset := by
    intro a ha
    rcases Finset.mem_insert.mp ha with rfl | ha
    · exact List.mem_toFinset.mpr hx
    · exact List.mem_toFinset.mpr (by
        rw [Finset.mem_singleton.mp ha]
        exact hy)
  have hcard := Finset.card_le_card hsub
  rw [Finset.card_pair hne] at hcard
  have htf : l.dedup.toFinset = l.toFinset := by
    ext a
    simp [List.mem_toFinset, List.mem_dedup]
  rwa [← htf, List.toFinset_card_of_nodup (List.nodup_dedup l)] at hcard

theorem exists_ne_of_two_le_dedup {α : Type} [DecidableEq α] {l : List α}
    (h : 2 ≤ l.dedup.length) : ∃ x ∈ l, ∃ y ∈ l, x ≠ y := by
  rcases hd : l.dedup with _ | ⟨x, _ | ⟨y, rest⟩⟩
  · rw [hd] at h
    simp at h
  · rw [hd] at h
    simp at h
  · have hnd := List.nodup_dedup l
    rw [hd] at hnd
    have hxy : x ≠ y := by
      intro hxe
      exact (List.nodup_cons.mp hnd).1 (hxe ▸ List.mem_cons_self y rest)
    have hxl : x ∈ l := List.mem_dedup.mp (hd ▸ List.mem_cons_self x (y :: rest))
    have hyl : y ∈ l :=
      List.mem_dedup.mp (hd ▸ List.mem_cons_of_mem x (List.mem_cons_self y rest))
    exact ⟨x, hxl, y, hyl, hxy⟩

/-- A user has a strict pairwise-item row iff it has two distinct
items. -/
theorem pairwise_strict_user_iff (df : List (ℚ × ℚ)) (u : ℚ) :
    (∃ s ∈ get_pairwise_items df, s.1 = u ∧ s.2.1 ≠ s.2.2) ↔
      2 ≤ ((df.filter (fun p => p.1 = u)).map Prod.snd).dedup.length := by
  constructor
  · rintro ⟨s, hs, hsu, hne⟩
    obtain ⟨hsf, _⟩ := List.mem_filter.mp hs
    obtain ⟨a, ha, hsm⟩ := List.mem_flatMap.mp hsf
    obtain ⟨b, hb, hse⟩ := List.mem_map.mp hsm
    obtain ⟨hbdf, hb1⟩ := List.mem_filter.mp hb
    have hau : a.1 = u := by rw [← hsu, ← hse]
    have hbu : b.1 = u := by
      rw [show b.1 = a.1 by simpa using hb1, hau]
    have hxmem : a.2 ∈ (df.filter (fun p => p.1 = u)).map Prod.snd :=
      List.mem_map.mpr ⟨a, List.mem_filter.mpr ⟨ha, by simp [hau]⟩, rfl⟩
    have hymem : b.2 ∈ (df.filter (fun p => p.1 = u)).map Prod.snd :=
      List.mem_map.mpr ⟨b, List.mem_filter.mpr ⟨hbdf, by simp [hbu]⟩, rfl⟩
    have hxy : a.2 ≠ b.2 := by
      intro hxe
      apply hne
      rw [← hse]
      simpa using hxe
    exact two_le_dedup_of_ne hxmem hymem hxy
  · intro h2
    obtain ⟨x, hx, y, hy, hxy⟩ := exists_ne_of_two_le_dedup h2
    obtain ⟨a, ha, hax⟩ := List.mem_map.mp hx
    obtain ⟨b, hb, hby⟩ := List.mem_map.mp hy
    obtain ⟨hadf, hau⟩ := List.mem_filter.mp ha
    obtain ⟨hbdf, hbu⟩ := List.mem_filter.mp hb
    have hau2 : a.1 = u := by simpa using hau
    have hbu2 : b.1 = u := by simpa using hbu
    rcases le_or_lt x y with hle | hlt
    · refine ⟨(a.1, a.2, b.2), ?_, by rw [hau2], ?_⟩
      · apply List.mem_filter.mpr
        refine ⟨List.mem_flatMap.mpr ⟨a, hadf, List.mem_map.mpr
          ⟨b, List.mem_filter.mpr ⟨hbdf, by simp [hau2, hbu2]⟩, rfl⟩⟩, ?_⟩
        simp only [decide_eq_true_eq]
        rw [hax, hby]
        exact hle
      · simp only
        rw [hax, hby]
        exact hxy
    · refine ⟨(b.1, b.2, a.2), ?_, by rw [hbu2], ?_⟩
      · apply List.mem_filter.mpr
        refine ⟨List.mem_flatMap.mpr ⟨b, hbdf, List.mem_map.mpr
          ⟨a, List.mem_filter.mpr ⟨hadf, by simp [hau2, hbu2]⟩, rfl⟩⟩, ?_⟩
        simp only [decide_eq_true_eq]
        rw [hax, hby]
        exact le_of_lt hlt
      · simp only
        rw [hax, hby]
        exact (Ne.symm hxy)


theorem map_fst_key_map {β : Type} (l : List ℚ) (g : ℚ → β) :
    (l.map (fun u => (u, g u))).map Prod.fst = l := by
  rw [List.map_map]
  exact List.map_id' l

/-- The users of `user_diversity` are those of the intra-list frame. -/
theorem user_diversity_keys (E : DiversityEval) :
    (user_diversity E).map Prod.fst =
      (get_intralist_similarity E).map Prod.fst := by
  rw [user_diversity, List.map_map]
  rfl

/-- The users of the intra-list frame: sorted distinct users of the
surviving pairwise rows. -/
theorem intralist_keys (E : DiversityEval) :
    (get_intralist_similarity E).map Prod.fst =
      List.insertionSort (fun a b => a ≤ b)
        (((intralist_filtered E).map (fun t => t.1)).dedup) := by
  rw [get_intralist_similarity]
  exact map_fst_key_map _ _

/-- A user appears in `user_diversity` iff its recommendation list holds
at least two distinct items. -/
theorem user_diversity_mem_iff (E : DiversityEval) (u : ℚ) :
    u ∈ (user_diversity E).map Prod.fst ↔
      2 ≤ (((E.reco_df.map (fun r => (r.1, r.2.1))).filter
        (fun p => p.1 = u)).map Prod.snd).dedup.length := by
  rw [user_diversity_keys, intralist_keys,
    (List.perm_insertionSort _ _).mem_iff, List.mem_dedup]
  constructor
  · intro hu
    obtain ⟨t, ht, htu⟩ := List.mem_map.mp hu
    rw [intralist_filtered] at ht
    obtain ⟨hmem, hne⟩ := List.mem_filter.mp ht
    obtain ⟨s, hs, hse⟩ := List.mem_map.mp hmem
    apply (pairwise_strict_user_iff _ u).mp
    refine ⟨s, hs, ?_, ?_⟩
    · rw [← htu, ← hse]
    · intro hcontra
      apply absurd hne
      rw [← hse]
      simp [hcontra]
  · intro h2
    obtain ⟨s, hs, hsu, hsne⟩ := (pairwise_strict_user_iff _ u).mpr h2
    apply List.mem_map.mpr
    refine ⟨(s.1, s.2.1, s.2.2,
      (((get_cosine_similarity E.train_df).find?
        (fun s2 => s2.1 = (s.2.1, s.2.2))).map Prod.snd).getD 0), ?_, by
        simp [hsu]⟩
    rw [intralist_filtered]
    apply List.mem_filter.mpr
    refine ⟨List.mem_map.mpr ⟨s, hs, rfl⟩, by simp [hsne]⟩

/-- The `user_diversity` frame has one row per user with at least two
distinct recommended items. -/
theorem user_diversity_length (E : DiversityEval) :
    (user_diversity E).length =
      (((E.reco_df.map (fun r => (r.1, r.2.1))).map Prod.fst).dedup.filter
        (fun u => 2 ≤ (((E.reco_df.map (fun r => (r.1, r.2.1))).filter
          (fun p => p.1 = u)).map Prod.snd).dedup.length)).length := by
  rw [show (user_diversity E).length =
      ((user_diversity E).map Prod.fst).length from (List.length_map _ _).symm]
  apply List.Perm.length_eq
  apply List.perm_of_nodup_nodup_toFinset_eq
  · rw [user_diversity_keys, intralist_keys]
    exact (List.nodup_dedup _).perm (List.perm_insertionSort _ _).symm
  · exact List.Nodup.filter _ (List.nodup_dedup _)
  · ext v
    simp only [List.mem_toFinset, List.mem_filter, decide_eq_true_eq]
    constructor
    · intro hv
      have h2 := (user_diversity_mem_iff E v).mp hv
      refine ⟨?_, h2⟩
      obtain ⟨x, hx, _, _, _⟩ := exists_ne_of_two_le_dedup h2
      obtain ⟨a, ha, _⟩ := List.mem_map.mp hx
      obtain ⟨hadf, hau⟩ := List.mem_filter.mp ha
      apply List.mem_dedup.mpr
      exact List.mem_map.mpr ⟨a, hadf, by simpa using hau⟩
    · rintro ⟨_, hv2⟩
      exact (user_diversity_mem_iff E v).mpr hv2

/-- C9: `user_diversity()` and `diversity()` average only over users
whose recommendation list contains at least two distinct items — once
the self-pairs are removed, a user with a single recommended item
contributes no rows, is absent from the `user_diversity()` output, and
the mean computed by `diversity()` divides by the number of users having
at least two distinct recommended items. -/
theorem C9_diversity_two_items (E : DiversityEval) :
    (∀ u : ℚ, u ∈ (user_diversity E).map Prod.fst ↔
      2 ≤ (((E.reco_df.map (fun r => (r.1, r.2.1))).filter
        (fun p => p.1 = u)).map Prod.snd).dedup.length) ∧
    (user_diversity E).length =
      (((E.reco_df.map (fun r => (r.1, r.2.1))).map Prod.fst).dedup.filter
        (fun u => 2 ≤ (((E.reco_df.map (fun r => (r.1, r.2.1))).filter
          (fun p => p.1 = u)).map Prod.snd).dedup.length)).length ∧
    diversity E = ((user_diversity E).map Prod.snd).sum /
      ((((E.reco_df.map (fun r => (r.1, r.2.1))).map Prod.fst).dedup.filter
        (fun u => 2 ≤ (((E.reco_df.map (fun r => (r.1, r.2.1))).filter
          (fun p => p.1 = u)).map Prod.snd).dedup.length)).length : ℝ) := by
  refine ⟨user_diversity_mem_iff E, user_diversity_length E, ?_⟩
  rw [diversity, user_diversity_length E]

end RecoEval
